import Mathlib

/-!
Verification development for the streaming assistant-message presentation and
tool-dispatch engine (`src/core/assistant-message/` of Roo-Code).

JavaScript strings are modelled as `List Char` (named `Str` below) where the
code manipulates their contents, and as Lean `String` for identifiers that are
only compared or stored.  JavaScript runtime values reaching `JSON.stringify`,
`JSON.parse` and the tool-input validators are modelled by the inductive
`JsValue`.  Numbers are modelled as integers: no code path under verification
constructs or consumes a fractional JSON number.
-/

set_option maxRecDepth 10000

/-- JS strings as lists of characters. -/
abbrev Str := List Char

def braceL : Char := '\x7b'
def braceR : Char := '\x7d'

/-- The whitespace class used by JavaScript `trim` and `\s` (ASCII part). -/
def isJsWs (c : Char) : Bool :=
  c == ' ' || c == '\t' || c == '\n' || c == '\r' || c == '\x0b' || c == '\x0c'

/-- JavaScript `String.prototype.trim` on our string model. -/
def jsTrim (l : Str) : Str :=
  ((l.dropWhile isJsWs).reverse.dropWhile isJsWs).reverse

/-- Whether `needle` occurs as a contiguous substring of `hay`
(JavaScript `String.prototype.includes`). -/
def containsSubstr (hay needle : Str) : Bool :=
  match hay with
  | [] => needle.isEmpty
  | _ :: rest => needle.isPrefixOf hay || containsSubstr rest needle

/-- A model of JavaScript runtime values, rich enough for the tool-input
paths: `undefined` is distinguished from `null`, numbers are integral. -/
inductive JsValue where
  | jsUndefined : JsValue
  | null : JsValue
  | bool : Bool → JsValue
  | num : Int → JsValue
  | str : String → JsValue
  | arr : List JsValue → JsValue
  | obj : List (String × JsValue) → JsValue

/-- JavaScript `typeof`. -/
def jsTypeof : JsValue → String
  | .jsUndefined => "undefined"
  | .null => "object"
  | .bool _ => "boolean"
  | .num _ => "number"
  | .str _ => "string"
  | .arr _ => "object"
  | .obj _ => "object"

/-- JavaScript truthiness. -/
def jsTruthy : JsValue → Bool
  | .jsUndefined => false
  | .null => false
  | .bool b => b
  | .num n => n ≠ 0
  | .str s => s ≠ ""
  | .arr _ => true
  | .obj _ => true

/-- Property access `v[key]` (`undefined` when absent).  Array index and
string index properties are modelled for faithfulness of `input.args`
lookups on non-object values. -/
def jsGet (v : JsValue) (key : String) : JsValue :=
  match v with
  | .obj kvs => ((kvs.find? (fun kv => kv.1 = key)).map (·.2)).getD .jsUndefined
  | _ => .jsUndefined

/-- `Object.entries` (own enumerable properties; for the inputs under
verification all keys are non-numeric, so insertion order is faithful). -/
def jsEntries : JsValue → List (String × JsValue)
  | .obj kvs => kvs
  | .arr xs => (xs.enum.map (fun p => (toString p.1, p.2)))
  | .str s => (s.data.enum.map (fun p => (toString p.1, JsValue.str (String.mk [p.2]))))
  | _ => []

/-- Number of keys `Object.keys(v).length`. -/
def jsKeysLength (v : JsValue) : Nat := (jsEntries v).length

/-- Hex digit for JSON `\u00XX` escapes. -/
def hexDigit (n : Nat) : Char :=
  if n < 10 then Char.ofNat ('0'.toNat + n) else Char.ofNat ('a'.toNat + n - 10)

/-- JSON escaping of one character inside a double-quoted string. -/
def jsonEscapeChar (c : Char) : Str :=
  if c = '"' then ['\\', '"']
  else if c = '\\' then ['\\', '\\']
  else if c = '\n' then ['\\', 'n']
  else if c = '\r' then ['\\', 'r']
  else if c = '\t' then ['\\', 't']
  else if c = '\x08' then ['\\', 'b']
  else if c = '\x0c' then ['\\', 'f']
  else if c.toNat < 0x20 then
    ['\\', 'u', '0', '0', hexDigit (c.toNat / 16), hexDigit (c.toNat % 16)]
  else [c]

/-- JSON rendering of a string literal, quotes included. -/
def jsonQuote (s : String) : Str :=
  '"' :: (s.data.flatMap jsonEscapeChar) ++ ['"']

/-- Digits of a natural number. -/
def natDigits (n : Nat) : Str := (toString n).data

/-- JSON rendering of an integral number. -/
def jsonNum (n : Int) : Str :=
  if n < 0 then '-' :: natDigits n.natAbs else natDigits n.natAbs

/-- Join rendered pieces with a separator string. -/
def joinSep (sep : Str) : List Str → Str
  | [] => []
  | [x] => x
  | x :: y :: rest => x ++ sep ++ joinSep sep (y :: rest)

mutual
/-- Compact `JSON.stringify(v)`: `none` models the `undefined` return for
non-serializable top-level values. -/
def jsonStringify : JsValue → Option Str
  | .jsUndefined => none
  | .null => some "null".data
  | .bool b => some (if b then "true".data else "false".data)
  | .num n => some (jsonNum n)
  | .str s => some (jsonQuote s)
  | .arr xs => some ('[' :: joinSep [','] (jsonStringifyArr xs) ++ [']'])
  | .obj kvs => some (braceL :: joinSep [','] (jsonStringifyObj kvs) ++ [braceR])

/-- Rendered array elements; `undefined` elements print as `null`. -/
def jsonStringifyArr : List JsValue → List Str
  | [] => []
  | x :: rest => ((jsonStringify x).getD "null".data) :: jsonStringifyArr rest

/-- Rendered object entries; entries with `undefined` values are dropped. -/
def jsonStringifyObj : List (String × JsValue) → List Str
  | [] => []
  | (k, v) :: rest =>
      match jsonStringify v with
      | none => jsonStringifyObj rest
      | some sv => (jsonQuote k ++ ':' :: sv) :: jsonStringifyObj rest
end

/-- Indentation used by `JSON.stringify(v, null, 2)`. -/
def indentStr (n : Nat) : Str := List.replicate n ' '

mutual
/-- Pretty `JSON.stringify(v, null, 2)` at current indentation depth `ind`
(spaces already owed to the enclosing container). -/
def jsonStringifyPretty (ind : Nat) : JsValue → Option Str
  | .jsUndefined => none
  | .null => some "null".data
  | .bool b => some (if b then "true".data else "false".data)
  | .num n => some (jsonNum n)
  | .str s => some (jsonQuote s)
  | .arr xs =>
      match xs with
      | [] => some "[]".data
      | _ =>
          some ('[' :: '\n' :: joinSep (',' :: '\n' :: [])
              ((jsonStringifyPrettyArr (ind + 2) xs).map (indentStr (ind + 2) ++ ·))
            ++ '\n' :: indentStr ind ++ [']'])
  | .obj kvs =>
      match jsonStringifyPrettyObj (ind + 2) kvs with
      | [] => some [braceL, braceR]
      | entries =>
          some (braceL :: '\n' :: joinSep (',' :: '\n' :: [])
              (entries.map (indentStr (ind + 2) ++ ·))
            ++ '\n' :: indentStr ind ++ [braceR])

/-- Pretty-rendered array elements; `undefined` elements print as `null`. -/
def jsonStringifyPrettyArr (ind : Nat) : List JsValue → List Str
  | [] => []
  | x :: rest =>
      ((jsonStringifyPretty ind x).getD "null".data) :: jsonStringifyPrettyArr ind rest

/-- Pretty-rendered object entries; `undefined` values are dropped. -/
def jsonStringifyPrettyObj (ind : Nat) : List (String × JsValue) → List Str
  | [] => []
  | (k, v) :: rest =>
      match jsonStringifyPretty ind v with
      | none => jsonStringifyPrettyObj ind rest
      | some sv => (jsonQuote k ++ ':' :: ' ' :: sv) :: jsonStringifyPrettyObj ind rest
end

/-- Insert a parsed object member: a duplicate key keeps its first position
but takes the later value, as `JSON.parse` does. -/
def objInsert (kvs : List (String × JsValue)) (k : String) (v : JsValue) :
    List (String × JsValue) :=
  match kvs with
  | [] => [(k, v)]
  | (k', v') :: rest =>
      if k' = k then (k', v) :: rest else (k', v') :: objInsert rest k v

/-- Decode four hex digits; `none` on a non-hex character. -/
def hexVal (c : Char) : Option Nat :=
  if '0' ≤ c ∧ c ≤ '9' then some (c.toNat - '0'.toNat)
  else if 'a' ≤ c ∧ c ≤ 'f' then some (c.toNat - 'a'.toNat + 10)
  else if 'A' ≤ c ∧ c ≤ 'F' then some (c.toNat - 'A'.toNat + 10)
  else none

/-- Parse the body of a JSON string literal after the opening quote,
returning the decoded characters and the remainder after the closing quote. -/
def parseJsonString (fuel : Nat) (l : Str) : Option (Str × Str) :=
  match fuel with
  | 0 => none
  | fuel + 1 =>
    match l with
    | [] => none
    | '"' :: rest => some ([], rest)
    | '\\' :: e :: rest =>
        let cont (c : Char) (r : Str) : Option (Str × Str) :=
          (parseJsonString fuel r).map (fun p => (c :: p.1, p.2))
        match e with
        | '"' => cont '"' rest
        | '\\' => cont '\\' rest
        | '/' => cont '/' rest
        | 'b' => cont '\x08' rest
        | 'f' => cont '\x0c' rest
        | 'n' => cont '\n' rest
        | 'r' => cont '\r' rest
        | 't' => cont '\t' rest
        | 'u' =>
            match rest with
            | h1 :: h2 :: h3 :: h4 :: rest' =>
                match hexVal h1, hexVal h2, hexVal h3, hexVal h4 with
                | some a, some b, some c, some d =>
                    cont (Char.ofNat (((a * 16 + b) * 16 + c) * 16 + d)) rest'
                | _, _, _, _ => none
            | _ => none
        | _ => none
    | c :: rest =>
        if c.toNat < 0x20 then none
        else (parseJsonString fuel rest).map (fun p => (c :: p.1, p.2))

/-- Parse a run of decimal digits. -/
def parseDigits (fuel : Nat) (l : Str) : Option (Nat × Str) :=
  match fuel with
  | 0 => none
  | fuel + 1 =>
    match l with
    | c :: rest =>
        if '0' ≤ c ∧ c ≤ '9' then
          match parseDigits fuel rest with
          | some (n, r) => some (n + (c.toNat - '0'.toNat) * 10 ^ (rest.length - r.length), r)
          | none => some (c.toNat - '0'.toNat, rest)
        else none
    | [] => none

mutual
/-- Recursive-descent `JSON.parse` value parser.  Fractional and exponent
number forms are not modelled (no code path under verification produces
them); integral numbers, strings, booleans, `null`, arrays and objects
follow the JSON grammar. -/
def parseJsonValue (fuel : Nat) (l : Str) : Option (JsValue × Str) :=
  match fuel with
  | 0 => none
  | fuel + 1 =>
    match l.dropWhile isJsWs with
    | [] => none
    | c :: rest =>
        if c = '"' then (parseJsonString fuel rest).map (fun p => (.str (String.mk p.1), p.2))
        else if c = '[' then
          match (rest.dropWhile isJsWs) with
          | ']' :: r => some (.arr [], r)
          | _ => (parseJsonArrItems fuel rest).map (fun p => (.arr p.1, p.2))
        else if c = braceL then
          match (rest.dropWhile isJsWs) with
          | r :: r' => if r = braceR then some (.obj [], r') else
              (parseJsonObjItems fuel rest []).map (fun p => (.obj p.1, p.2))
          | [] => none
        else if List.isPrefixOf "true".data (c :: rest) then
          some (.bool true, (c :: rest).drop 4)
        else if List.isPrefixOf "false".data (c :: rest) then
          some (.bool false, (c :: rest).drop 5)
        else if List.isPrefixOf "null".data (c :: rest) then
          some (.null, (c :: rest).drop 4)
        else if c = '-' then
          match parseDigits fuel rest with
          | some (n, r) =>
              match r with
              | d :: _ => if d = '.' ∨ d = 'e' ∨ d = 'E' then none else some (.num (-(n : Int)), r)
              | [] => some (.num (-(n : Int)), [])
          | none => none
        else if '0' ≤ c ∧ c ≤ '9' then
          match parseDigits fuel (c :: rest) with
          | some (n, r) =>
              match r with
              | d :: _ => if d = '.' ∨ d = 'e' ∨ d = 'E' then none else some (.num (n : Int), r)
              | [] => some (.num (n : Int), [])
          | none => none
        else none

/-- Array elements after `[`, at least one element expected. -/
def parseJsonArrItems (fuel : Nat) (l : Str) : Option (List JsValue × Str) :=
  match fuel with
  | 0 => none
  | fuel + 1 =>
    match parseJsonValue fuel l with
    | none => none
    | some (v, r) =>
        match r.dropWhile isJsWs with
        | ',' :: r' => (parseJsonArrItems fuel r').map (fun p => (v :: p.1, p.2))
        | ']' :: r' => some ([v], r')
        | _ => none

/-- Object members after the opening brace, at least one member expected. -/
def parseJsonObjItems (fuel : Nat) (l : Str) (acc : List (String × JsValue)) :
    Option (List (String × JsValue) × Str) :=
  match fuel with
  | 0 => none
  | fuel + 1 =>
    match l.dropWhile isJsWs with
    | '"' :: r =>
        match parseJsonString fuel r with
        | none => none
        | some (k, r') =>
            match r'.dropWhile isJsWs with
            | ':' :: r'' =>
                match parseJsonValue fuel r'' with
                | none => none
                | some (v, r3) =>
                    let acc' := objInsert acc (String.mk k) v
                    match r3.dropWhile isJsWs with
                    | ',' :: r4 => parseJsonObjItems fuel r4 acc'
                    | r4 :: r5 => if r4 = braceR then some (acc', r5) else none
                    | [] => none
            | _ => none
    | _ => none
end

/-- `JSON.parse` on a whole string: `none` models a thrown `SyntaxError`. -/
def jsonParse (l : Str) : Option JsValue :=
  match parseJsonValue (2 * l.length + 2) l with
  | some (v, rest) => if (rest.dropWhile isJsWs).isEmpty then some v else none
  | none => none


/-! Section: `validation.ts` -/

/-- `validateToolUseId`: a tool-use id must be a non-empty string. -/
def validateToolUseId (id : String) : Bool := id.length > 0

/-- Whether a value is literally `null`. -/
def jsIsNull : JsValue → Bool
  | .null => true
  | _ => false

/-- `validateToolInput`: `typeof input` must be `"object"` and `input` must
not be `null`; the subsequent `JSON.stringify` probe cannot throw on the
acyclic values of the model, so every remaining value passes. -/
def validateToolInput (input : JsValue) : Bool :=
  if jsTypeof input ≠ "object" ∨ jsIsNull input then false else true

/-- Characters kept by `sanitizeToolName`. -/
def isToolNameKept (c : Char) : Bool :=
  ('a' ≤ c ∧ c ≤ 'z') ∨ ('A' ≤ c ∧ c ≤ 'Z') ∨ ('0' ≤ c ∧ c ≤ '9') ∨ c = '_' ∨ c = '-'

/-- `sanitizeToolName`: every character outside `[a-zA-Z0-9_-]` becomes `_`. -/
def sanitizeToolName (name : String) : String :=
  String.mk (name.data.map (fun c => if isToolNameKept c then c else '_'))

/-! Section: `anthropic-native.ts`, encoding bridge -/

/-- One `<key>…</key>` line of the `args`-array branch of
`convertAnthropicToolUseToXml` (line 73-79): string values are spliced
verbatim, `null`/`undefined` values are skipped, anything else is rendered
with compact `JSON.stringify`. -/
def xmlArgEntry (key : String) (value : JsValue) : Str :=
  match value with
  | .str v => '<' :: key.data ++ '>' :: v.data ++ '<' :: '/' :: key.data ++ ['>', '\n']
  | .null => []
  | .jsUndefined => []
  | v => '<' :: key.data ++ '>' :: ((jsonStringify v).getD "undefined".data)
      ++ '<' :: '/' :: key.data ++ ['>', '\n']

/-- One `<file>…</file>` wrapper produced for each element of an `args`
array. -/
def xmlFileItem (arg : JsValue) : Str :=
  "<file>\n".data ++ ((jsEntries arg).map (fun kv => xmlArgEntry kv.1 kv.2)).flatten
    ++ "</file>\n".data

/-- `<key>\n` body `\n</key>\n` as produced by the normal key-value branch. -/
def xmlParamTag (key : String) (body : Str) : Str :=
  '<' :: key.data ++ '>' :: '\n' :: body ++ '\n' :: '<' :: '/' :: key.data ++ ['>', '\n']

/-- The normal key-value branch of `convertAnthropicToolUseToXml`
(line 88-103): strings splice verbatim, arrays repeat the tag per element,
`null`/`undefined` are omitted, other values pretty-print with
`JSON.stringify(value, null, 2)`. -/
def xmlKeyValue (key : String) (value : JsValue) : Str :=
  match value with
  | .str v => xmlParamTag key v.data
  | .arr items =>
      (items.map (fun item =>
        match item with
        | .str s => xmlParamTag key s.data
        | it => xmlParamTag key ((jsonStringifyPretty 0 it).getD "undefined".data))).flatten
  | .null => []
  | .jsUndefined => []
  | v => xmlParamTag key ((jsonStringifyPretty 0 v).getD "undefined".data)

/-- `convertAnthropicToolUseToXml`: renders `<name>…</name>`; when
`input.args` is an array (arrays are always truthy) the special
`<args>/<file>` branch runs, otherwise one tag per entry of `input`.
The surrounding `try`/`catch` of the source cannot fire in the model
(no serialization of the rendered pieces throws). -/
def convertAnthropicToolUseToXml (name : String) (input : JsValue) : Str :=
  let body :=
    match jsGet input "args" with
    | .arr argsList =>
        "<args>\n".data ++ (argsList.map xmlFileItem).flatten ++ "</args>\n".data
    | _ => ((jsEntries input).map (fun kv => xmlKeyValue kv.1 kv.2)).flatten
  '<' :: name.data ++ '>' :: '\n' :: body ++ '<' :: '/' :: name.data ++ ['>']

/-- The provider-facing tool-response block. -/
structure ToolResultBlockParam where
  toolUseId : String
  content : Str
  isError : Bool

/-- `convertXmlResultToAnthropicToolResponse`: wraps the result text with the
error flag (`result || ""` collapses to `result` on the string model); the
`catch` branch of the source is unreachable in the model. -/
def convertXmlResultToAnthropicToolResponse (toolUseId : String) (result : Str)
    (isError : Bool) : ToolResultBlockParam :=
  ⟨toolUseId, result, isError⟩

/-! Section: `anthropic-native.ts`, `AnthropicToolUseAccumulator`

The private `Map` keyed by call id is modelled as an association list in
insertion order; `Map.set` on an existing key keeps its position, as in
JavaScript. -/

/-- An entry of `pendingToolUses`. -/
structure PendingToolUse where
  id : String
  name : String
  inputJson : Str
  completed : Bool

/-- The accumulator state: `pendingToolUses` in insertion order. -/
abbrev AccState := List (String × PendingToolUse)

/-- `Map.get`. -/
def mapGet (s : AccState) (id : String) : Option PendingToolUse :=
  (s.find? (fun kv => kv.1 = id)).map (·.2)

/-- `Map.set`: replace in place when the key exists, append otherwise. -/
def mapSet (s : AccState) (id : String) (v : PendingToolUse) : AccState :=
  match s with
  | [] => [(id, v)]
  | (k, w) :: rest => if k = id then (k, v) :: rest else (k, w) :: mapSet rest id v

/-- In-place mutation of the entry at `id`, as the source mutates the object
returned by `Map.get`. -/
def mapUpdate (s : AccState) (id : String) (f : PendingToolUse → PendingToolUse) :
    AccState :=
  s.map (fun kv => if kv.1 = id then (kv.1, f kv.2) else kv)

/-- A completed tool-use chunk as returned to the stream consumer. -/
structure AnthropicToolUseChunk where
  id : String
  name : String
  input : JsValue

namespace AnthropicToolUseAccumulator

/-- `addToolUseStart`: no-op on an invalid id or input; otherwise registers
the call with the sanitized name, seeding the accumulated text with the
serialized input unless the input has no keys. -/
def addToolUseStart (s : AccState) (id : String) (name : String) (input : JsValue) :
    AccState :=
  if ¬ validateToolUseId id then s
  else if ¬ validateToolInput input then s
  else
    let sanitizedName := sanitizeToolName name
    let isEmptyInput := jsKeysLength input = 0
    mapSet s id ⟨id, sanitizedName,
      if isEmptyInput then [] else (jsonStringify input).getD [], false⟩

/-- `addToolUseDelta`: appends the fragment to a registered, not yet
completed call; otherwise a no-op. -/
def addToolUseDelta (s : AccState) (id : String) (partialJson : Str) : AccState :=
  match mapGet s id with
  | some existing =>
      if existing.completed then s
      else mapUpdate s id (fun tu => { tu with inputJson := tu.inputJson ++ partialJson })
  | none => s

/-- `completeToolUse`: parses the accumulated text; on success marks the call
completed and returns the chunk, on failure (or unknown id) returns `null`
leaving the state untouched. -/
def completeToolUse (s : AccState) (id : String) :
    Option AnthropicToolUseChunk × AccState :=
  match mapGet s id with
  | none => (none, s)
  | some toolUse =>
      match jsonParse toolUse.inputJson with
      | some input =>
          (some ⟨toolUse.id, toolUse.name, input⟩,
           mapUpdate s id (fun tu => { tu with completed := true }))
      | none => (none, s)

/-- `getCompletedToolUses`: re-parses and returns every completed call in
insertion order, silently skipping one whose text no longer parses; the
method never deletes from the map, so the state is returned unchanged. -/
def getCompletedToolUses (s : AccState) : List AnthropicToolUseChunk × AccState :=
  (s.filterMap (fun kv =>
      if kv.2.completed then
        (jsonParse kv.2.inputJson).map (fun input => ⟨kv.2.id, kv.2.name, input⟩)
      else none),
   s)

end AnthropicToolUseAccumulator

/-! Section: `AnthropicToolHandler` (historical variant, `src/unnamed/part_001`) -/

/-- An entry of `streamingToolUses` of the historical handler. -/
structure StreamingToolUse where
  id : String
  name : String
  input : JsValue
  isComplete : Bool
  accumulatedJson : Str

/-- The handler's map of streaming tool uses, in insertion order. -/
abbrev HandlerState := List (String × StreamingToolUse)

namespace AnthropicToolHandler

/-- `getCompletedToolUses` of the historical handler: returns the completed
calls in insertion order and deletes each returned call from the map. -/
def getCompletedToolUses (s : HandlerState) : List StreamingToolUse × HandlerState :=
  let completed := (s.map (·.2)).filter (·.isComplete)
  (completed, s.filter (fun kv => ¬ (completed.map (·.id)).contains kv.1))

end AnthropicToolHandler

/-! Section: text presentation — thinking-marker removal and dangling-tag stripping
(`presentAnthropicAssistantMessage.ts` lines 48-75) -/

/-- The `<thinking>` marker. -/
def thinkOpenTag : Str := "<thinking>".data

/-- The `</thinking>` marker. -/
def thinkCloseTag : Str := "</thinking>".data

/-- Drop a single leading whitespace character, if any (the `\s?` of the
thinking-marker regexes). -/
def dropOneWs (l : Str) : Str :=
  match l with
  | [] => []
  | d :: rest => if isJsWs d then rest else d :: rest

/-- `content.replace(/<thinking>\s?/g, "")` via a character-count fuel:
left-to-right removal of each occurrence of the marker together with at most
one following whitespace character. -/
def replaceThinkOpenFuel : Nat → Str → Str
  | 0, l => l
  | fuel + 1, l =>
    match l with
    | [] => []
    | c :: cs =>
        if thinkOpenTag.isPrefixOf (c :: cs) then replaceThinkOpenFuel fuel (dropOneWs (cs.drop 9))
        else c :: replaceThinkOpenFuel fuel cs

/-- `content.replace(/<thinking>\s?/g, "")`. -/
def replaceThinkOpen (l : Str) : Str := replaceThinkOpenFuel (l.length + 1) l

/-- `content.replace(/\s?<\/thinking>/g, "")` via a character-count fuel:
left-to-right removal of each occurrence of the marker together with at most
one preceding whitespace character. -/
def replaceThinkCloseFuel : Nat → Str → Str
  | 0, l => l
  | fuel + 1, l =>
    match l with
    | [] => []
    | c :: cs =>
        if isJsWs c ∧ thinkCloseTag.isPrefixOf cs then replaceThinkCloseFuel fuel (cs.drop 11)
        else if thinkCloseTag.isPrefixOf (c :: cs) then replaceThinkCloseFuel fuel (cs.drop 10)
        else c :: replaceThinkCloseFuel fuel cs

/-- `content.replace(/\s?<\/thinking>/g, "")`. -/
def replaceThinkClose (l : Str) : Str := replaceThinkCloseFuel (l.length + 1) l

/-- Index of the last occurrence of `c` (JavaScript `lastIndexOf`). -/
def lastIndexOf (l : Str) (c : Char) : Option Nat :=
  match l with
  | [] => none
  | x :: rest =>
      match lastIndexOf rest c with
      | some i => some (i + 1)
      | none => if x = c then some 0 else none

/-- Characters accepted by the `/^[a-zA-Z_]+$/` plausible-tag-name test. -/
def isTagNameChar (c : Char) : Bool :=
  ('a' ≤ c ∧ c ≤ 'z') ∨ ('A' ≤ c ∧ c ≤ 'Z') ∨ c = '_'

/-- Lines 54-74: when the fragment from the last `<` onward has no `>`, and
is exactly `<` or `</`, or its content after the bracket(s) trims to a
non-empty run of alphabetic/underscore characters, the fragment is dropped
and the remaining text trimmed. -/
def stripDanglingTag (content : Str) : Str :=
  match lastIndexOf content '<' with
  | none => content
  | some i =>
      let possibleTag := content.drop i
      if possibleTag.contains '>' then content
      else
        let tagContent :=
          if ['<', '/'].isPrefixOf possibleTag then jsTrim (possibleTag.drop 2)
          else jsTrim (possibleTag.drop 1)
        let isLikelyTagName := ¬ tagContent.isEmpty ∧ tagContent.all isTagNameChar
        let isOpeningOrClosing := possibleTag = ['<'] ∨ possibleTag = ['<', '/']
        if isOpeningOrClosing ∨ isLikelyTagName then jsTrim (content.take i) else content

/-- The full text-block treatment of the dispatcher (lines 48-75): the empty
string skips processing; otherwise both thinking markers are removed and a
dangling trailing tag fragment is stripped. -/
def presentTextContent (content : Str) : Str :=
  if content.isEmpty then content
  else stripDanglingTag (replaceThinkClose (replaceThinkOpen content))

/-! Section: tag-encoded tool invocations

`parseAssistantMessage.ts` is not part of the sources under verification
(only its callers are), so the tag parser is modelled from the spec. -/

/-- A parsed tag-encoded tool invocation; `unfinished` is the `partial` flag
of the data model. -/
structure TagToolInvocation where
  name : String
  params : List (String × String)
  unfinished : Bool
deriving DecidableEq, Repr

/-- A block produced by the tag parser. -/
inductive ParsedBlock where
  | text (content : String) (unfinished : Bool)
  | toolUse (inv : TagToolInvocation)
deriving DecidableEq, Repr

/-- The tool names the engine recognizes (the dispatcher's switch plus
`browser_action`, which the source singles out for the ancillary-session
rule). -/
def knownToolNames : List String :=
  ["read_file", "write_to_file", "list_files", "search_files", "execute_command",
   "search_and_replace", "insert_content", "attempt_completion",
   "ask_followup_question", "browser_action"]

/-- A known open tag `<name>` at the head of the input. -/
def matchKnownOpen (l : Str) : Option String :=
  knownToolNames.find? (fun n => ('<' :: n.data ++ ['>']).isPrefixOf l)

/-- Earliest position of a known open tag. -/
def scanOpenTag : Str → Option (Nat × String)
  | [] => none
  | c :: rest =>
      match matchKnownOpen (c :: rest) with
      | some n => some (0, n)
      | none => (scanOpenTag rest).map (fun p => (p.1 + 1, p.2))

/-- Earliest starting index of `pat` as a contiguous sublist of `l`. -/
def findSub (l pat : Str) : Option Nat :=
  match l with
  | [] => if pat.isEmpty then some 0 else none
  | _ :: rest =>
      if pat.isPrefixOf l then some 0 else (findSub rest pat).map (· + 1)

/-- Characters allowed in a parameter tag name. -/
def isParamNameChar (c : Char) : Bool :=
  isTagNameChar c ∨ ('0' ≤ c ∧ c ≤ '9') ∨ c = '-'

/-- Modelled from the spec: parameter sub-tags of a tool invocation body,
grammar `<param>\nvalue\n</param>` (§6), values of fully closed tags with the
framing whitespace trimmed, an unclosed trailing tag contributing its partial
textual content as a best-effort value (§4.1). -/
def parseParams (fuel : Nat) (l : Str) : List (String × String) :=
  match fuel with
  | 0 => []
  | fuel + 1 =>
    match l.dropWhile isJsWs with
    | '<' :: rest =>
        let key := rest.takeWhile isParamNameChar
        if key.isEmpty then []
        else
          match rest.drop key.length with
          | '>' :: body =>
              match findSub body ('<' :: '/' :: key ++ ['>']) with
              | some j =>
                  (String.mk key, String.mk (jsTrim (body.take j))) ::
                    parseParams fuel (body.drop (j + key.length + 3))
              | none => [(String.mk key, String.mk (jsTrim body))]
          | _ => []
    | _ => []

/-- Modelled from the spec: `parseAssistantMessage` over cumulative text
(§4.1) — text outside any recognized tag is a text block, a recognized
`<toolname>` with a matching close yields a completed tag invocation whose
parameters come from its body, and one with no close by end-of-input yields a
`partial` invocation with best-effort parameters. -/
def specParseBlocks (fuel : Nat) (l : Str) : List ParsedBlock :=
  match fuel with
  | 0 => []
  | fuel + 1 =>
    match scanOpenTag l with
    | none => if l.isEmpty then [] else [.text (String.mk l) false]
    | some (i, name) =>
        let pre := l.take i
        let preBlocks : List ParsedBlock :=
          if pre.isEmpty then [] else [.text (String.mk pre) false]
        let afterOpen := l.drop (i + name.length + 2)
        match findSub afterOpen ('<' :: '/' :: name.data ++ ['>']) with
        | some j =>
            preBlocks ++ .toolUse ⟨name, parseParams (afterOpen.length + 1) (afterOpen.take j), false⟩ ::
              specParseBlocks fuel (afterOpen.drop (j + name.data.length + 3))
        | none =>
            preBlocks ++ [.toolUse ⟨name, parseParams (afterOpen.length + 1) afterOpen, true⟩]

/-- Modelled from the spec: the incremental text-tag parser entry point. -/
def parseAssistantMessage (l : Str) : List ParsedBlock :=
  specParseBlocks (l.length + 1) l

/-! Section: `presentAnthropicAssistantMessage.ts`, the dispatcher

The `Task` fields the dispatcher reads or writes are collected in
`TaskState`.  The external collaborators — `say`, the permission validator
`validateToolUse` (imported from `../tools/validateToolUse`) and the tool
handlers — are abstracted by a per-block-index environment deciding whether
`say` throws, whether validation throws, and how the invoked handler
behaves (its `askApproval` closure may set `didRejectTool`, its result
callback may deliver content, or it may throw). -/

/-- One content block of `assistantMessageContent`. -/
inductive Block where
  | text (content : Str) (unfinished : Bool)
  | anthropicToolUse (id : String) (name : String) (input : JsValue) (unfinished : Bool)
  | toolUse (inv : TagToolInvocation)

/-- `block.partial`. -/
def blockIsPartial : Block → Bool
  | .text _ u => u
  | .anthropicToolUse _ _ _ u => u
  | .toolUse inv => inv.unfinished

/-- The dispatcher-relevant fields of `Task`. -/
structure TaskState where
  abort : Bool
  presentAssistantMessageLocked : Bool
  presentAssistantMessageHasPendingUpdates : Bool
  currentStreamingContentIndex : Nat
  assistantMessageContent : List Block
  didCompleteReadingStream : Bool
  userMessageContentReady : Bool
  didRejectTool : Bool
  didAlreadyUseTool : Bool
  userMessageContent : List ToolResultBlockParam
  consecutiveMistakeCount : Nat

/-- Observable interactions of one dispatch run with its collaborators. -/
inductive DispatchEvent where
  | sayText (content : Str) (isPartialB : Bool)
  | browserClosed
  | toolUsageRecorded (name : String)
  | handlerInvoked (name : String)

/-- One element of a block-array tool result. -/
inductive ResultItem where
  | textItem (text : Str)
  | otherItem

/-- A content value delivered to `pushToolResult`. -/
inductive ToolResultContent where
  | str (s : Str)
  | items (l : List ResultItem)

/-- How the single invoked tool handler behaves: it either throws (caught by
the inner `catch`), or runs to completion, possibly setting `didRejectTool`
through its `askApproval` closure and possibly delivering result content
through its callback. -/
inductive HandlerBehavior where
  | throws (msg : Str)
  | finishes (setReject : Bool) (results : Option ToolResultContent)

/-- Environment decisions for the block at one cursor index. -/
structure BlockEnv where
  sayThrows : Bool
  validateFails : Option Str
  handler : HandlerBehavior

/-- Per-index environment for a whole run. -/
abbrev DispatchEnv := Nat → BlockEnv

/-- Modelled from the spec: `formatResponse.toolError` of
`../prompts/responses` is not among the sources; §4.4 and §7 describe it as
the synthesized tool-error outcome for a failure message. -/
def formatResponseToolError (msg : Str) : Str := "Error: ".data ++ msg

/-- `pushToolResult` (lines 125-136): a string becomes one text entry (the
`=== "" ? "" : (content || fallback)` ternary collapses to the string
itself, since the empty string maps to itself and any other string is
truthy); an array is spliced as-is. -/
def pushToolResult : ToolResultContent → List ResultItem
  | .str s => [.textItem s]
  | .items l => l

/-- The result-conversion loop (lines 280-290): concatenate the text items
with newlines and flag an error when any text item contains `"Error"`. -/
def convertToolResults : List ResultItem → Str × Bool
  | [] => ([], false)
  | .textItem t :: rest =>
      let p := convertToolResults rest
      (t ++ '\n' :: p.1, containsSubstr t "Error".data || p.2)
  | .otherItem :: rest => convertToolResults rest

/-- The tool names with a handler in the dispatcher's switch (lines
221-277); any other name falls to the `default` not-implemented branch. -/
def knownDispatchToolNames : List String :=
  ["read_file", "write_to_file", "list_files", "search_files", "execute_command",
   "search_and_replace", "insert_content", "attempt_completion", "ask_followup_question"]

/-- How a block handler leaves the pass: `early` models a `return` (or a
propagating exception) before the unlock-and-advance tail, `cont` models
falling through to it. -/
inductive BlockStep where
  | early (outcome : Bool) (thrownMsg : Str) (s : TaskState) (ev : List DispatchEvent)
  | cont (s : TaskState) (ev : List DispatchEvent)

/-- The `text` case (lines 42-79): suppressed after a rejection or a tool
use; otherwise the processed content is emitted through `say`, whose
exception would propagate with the lock still held. -/
def presentTextBlock (be : BlockEnv) (s : TaskState) (content : Str) (unf : Bool) :
    BlockStep :=
  if s.didRejectTool || s.didAlreadyUseTool then .cont s []
  else
    let c := presentTextContent content
    if be.sayThrows then .early false "say failed".data s []
    else .cont s [.sayText c unf]

/-- The `anthropic_tool_use` case (lines 80-351).  The converted block
temporarily replaces the live entry of `assistantMessageContent`; every exit
of the inner `try`/`catch` restores it except the validation-failure branch,
which `return`s at line 215 before both the restore (line 322) and the
unlock (line 360).  The outer `catch` (line 336) has no reachable throw
site in the model.  The `originalUserMessageContent` snapshot of line 104 is
never used by the source and is not modelled. -/
def presentAnthropicToolUseBlock (be : BlockEnv) (s : TaskState) (id name : String)
    (input : JsValue) : BlockStep :=
  if s.didRejectTool || s.didAlreadyUseTool then .cont s []
  else
    let xmlContent := convertAnthropicToolUseToXml name input
    let xmlContentBlocks := parseAssistantMessage xmlContent
    match xmlContentBlocks.find? (fun b => match b with | .toolUse _ => true | _ => false) with
    | some (.toolUse inv) =>
        let sSwap := { s with assistantMessageContent :=
          s.assistantMessageContent.set s.currentStreamingContentIndex (.toolUse inv) }
        let ev1 : List DispatchEvent :=
          if inv.name ≠ "browser_action" then [.browserClosed] else []
        let ev2 : List DispatchEvent :=
          if ¬ inv.unfinished then [.toolUsageRecorded inv.name] else []
        match be.validateFails with
        | some errMsg =>
            .early true [] { sSwap with
              consecutiveMistakeCount := sSwap.consecutiveMistakeCount + 1,
              userMessageContent := sSwap.userMessageContent ++
                [convertXmlResultToAnthropicToolResponse id (formatResponseToolError errMsg) true],
              didAlreadyUseTool := true } (ev1 ++ ev2)
        | none =>
            if knownDispatchToolNames.contains inv.name then
              match be.handler with
              | .throws msg =>
                  .cont { sSwap with
                    assistantMessageContent := s.assistantMessageContent,
                    userMessageContent := sSwap.userMessageContent ++
                      [convertXmlResultToAnthropicToolResponse id
                        ("Tool execution failed: ".data ++ msg) true],
                    didAlreadyUseTool := true } (ev1 ++ ev2 ++ [.handlerInvoked inv.name])
              | .finishes setReject results =>
                  let toolResults := match results with
                    | none => []
                    | some c => pushToolResult c
                  let conv := convertToolResults toolResults
                  .cont { sSwap with
                    assistantMessageContent := s.assistantMessageContent,
                    didRejectTool := sSwap.didRejectTool || setReject,
                    userMessageContent := sSwap.userMessageContent ++
                      [convertXmlResultToAnthropicToolResponse id (jsTrim conv.1) conv.2],
                    didAlreadyUseTool := true } (ev1 ++ ev2 ++ [.handlerInvoked inv.name])
            else
              let toolResults := pushToolResult (.str (formatResponseToolError
                ("Tool ".data ++ inv.name.data ++ " not implemented in Anthropic native mode".data)))
              let conv := convertToolResults toolResults
              .cont { sSwap with
                assistantMessageContent := s.assistantMessageContent,
                userMessageContent := sSwap.userMessageContent ++
                  [convertXmlResultToAnthropicToolResponse id (jsTrim conv.1) conv.2],
                didAlreadyUseTool := true } (ev1 ++ ev2)
    | _ =>
        .cont { s with
          userMessageContent := s.userMessageContent ++
            [convertXmlResultToAnthropicToolResponse id
              "Failed to convert Anthropic tool use to XML format".data true],
          didAlreadyUseTool := true } []

/-- Outcome of one dispatcher invocation. -/
inductive PassOutcome where
  | normal
  | thrown (msg : Str)

/-- A finished dispatcher run: its outcome, final task state and the
collaborator interactions in order. -/
structure DispatchResult where
  outcome : PassOutcome
  state : TaskState
  events : List DispatchEvent

/-- The dispatcher `presentAnthropicAssistantMessage`, with a fuel bound on
the self-recursion of lines 370 and 376 (`none` only on fuel exhaustion).
The legacy `tool_use` case (lines 352-356) forwards to
`presentAssistantMessage`, which is not among the sources; modelled from the
spec (§4.4 transition 1): invoked while the lock is held it only schedules a
pending pass and returns, after which line 355 returns with the lock still
held. -/
def presentAnthropicAssistantMessage (fuel : Nat) (env : DispatchEnv) (s : TaskState) :
    Option DispatchResult :=
  match fuel with
  | 0 => none
  | fuel + 1 =>
    if s.abort then some ⟨.thrown "aborted".data, s, []⟩
    else if s.presentAssistantMessageLocked then
      some ⟨.normal, { s with presentAssistantMessageHasPendingUpdates := true }, []⟩
    else
      let s1 := { s with presentAssistantMessageLocked := true,
                         presentAssistantMessageHasPendingUpdates := false }
      if s1.currentStreamingContentIndex ≥ s1.assistantMessageContent.length then
        let s2 := if s1.didCompleteReadingStream
                  then { s1 with userMessageContentReady := true } else s1
        some ⟨.normal, { s2 with presentAssistantMessageLocked := false }, []⟩
      else
        match s1.assistantMessageContent.get? s1.currentStreamingContentIndex with
        | none => some ⟨.normal, s1, []⟩
        | some block =>
          let step :=
            match block with
            | .text content unf =>
                presentTextBlock (env s1.currentStreamingContentIndex) s1 content unf
            | .anthropicToolUse id name input _ =>
                presentAnthropicToolUseBlock (env s1.currentStreamingContentIndex) s1 id name input
            | .toolUse _ =>
                .early true []
                  { s1 with presentAssistantMessageHasPendingUpdates := true } []
          match step with
          | .early normalExit msg s2 ev =>
              some ⟨if normalExit then .normal else .thrown msg, s2, ev⟩
          | .cont s2 ev =>
            let s3 := { s2 with presentAssistantMessageLocked := false }
            if ¬ blockIsPartial block ∨ s3.didRejectTool ∨ s3.didAlreadyUseTool then
              let s4 := if s3.currentStreamingContentIndex =
                           s3.assistantMessageContent.length - 1
                        then { s3 with userMessageContentReady := true } else s3
              let s5 := { s4 with currentStreamingContentIndex :=
                           s4.currentStreamingContentIndex + 1 }
              if s5.currentStreamingContentIndex < s5.assistantMessageContent.length then
                (presentAnthropicAssistantMessage fuel env s5).map
                  (fun r => ⟨r.outcome, r.state, ev ++ r.events⟩)
              else if s5.presentAssistantMessageHasPendingUpdates then
                (presentAnthropicAssistantMessage fuel env s5).map
                  (fun r => ⟨r.outcome, r.state, ev ++ r.events⟩)
              else some ⟨.normal, s5, ev⟩
            else
              if s3.presentAssistantMessageHasPendingUpdates then
                (presentAnthropicAssistantMessage fuel env s3).map
                  (fun r => ⟨r.outcome, r.state, ev ++ r.events⟩)
              else some ⟨.normal, s3, ev⟩

/-- Whether an event records the invocation of a tool handler. -/
def isHandlerEvent : DispatchEvent → Bool
  | .handlerInvoked _ => true
  | _ => false

/-- Number of tool-handler invocations recorded in a run's event list. -/
def countHandlerEvents (ev : List DispatchEvent) : Nat :=
  (ev.filter isHandlerEvent).length

/-! Theorems -/

theorem mapGet_mapSet_self (s : AccState) (id : String) (v : PendingToolUse) :
    mapGet (mapSet s id v) id = some v := by
  induction s with
  | nil => simp [mapGet, mapSet, List.find?]
  | cons kv rest ih =>
      obtain ⟨k, w⟩ := kv
      by_cases hk : k = id
      · simp [mapGet, mapSet, hk, List.find?]
      · simpa [mapGet, mapSet, hk, List.find?] using ih

theorem mapGet_mapUpdate_self (s : AccState) (id : String) (f : PendingToolUse → PendingToolUse) :
    mapGet (mapUpdate s id f) id = (mapGet s id).map f := by
  induction s with
  | nil => simp [mapGet, mapUpdate, List.find?]
  | cons kv rest ih =>
      obtain ⟨k, w⟩ := kv
      by_cases hk : k = id
      · simp [mapGet, mapUpdate, hk, List.find?]
      · simpa [mapGet, mapUpdate, hk, List.find?] using ih

theorem addToolUseDelta_get (s : AccState) (id : String) (d : Str) (tu : PendingToolUse)
    (h : mapGet s id = some tu) (hc : tu.completed = false) :
    mapGet (AnthropicToolUseAccumulator.addToolUseDelta s id d) id =
      some { tu with inputJson := tu.inputJson ++ d } := by
  unfold AnthropicToolUseAccumulator.addToolUseDelta
  rw [h]
  simp [hc, mapGet_mapUpdate_self, h]

theorem deltaFold_get (ds : List Str) (s : AccState) (id : String) (tu : PendingToolUse)
    (h : mapGet s id = some tu) (hc : tu.completed = false) :
    mapGet (ds.foldl (fun acc d => AnthropicToolUseAccumulator.addToolUseDelta acc id d) s) id =
      some { tu with inputJson := tu.inputJson ++ ds.flatten } := by
  induction ds generalizing s tu with
  | nil => simpa using h
  | cons d rest ih =>
      have h1 := addToolUseDelta_get s id d tu h hc
      have h2 := ih (AnthropicToolUseAccumulator.addToolUseDelta s id d)
        { tu with inputJson := tu.inputJson ++ d } h1 hc
      simpa [List.append_assoc] using h2

/-- C3: after `addToolUseStart(id, name, args)` with an object argument and
deltas `d1..dn` on the same id, `completeToolUse(id)` returns an invocation
whose input is `JSON.parse` of seed ++ d1 ++ … ++ dn, where the seed is the
serialization of `args` unless `args` is the empty object (then the empty
string) — provided that concatenation parses as JSON. -/
theorem completeToolUse_parses_seed_and_deltas
    (s0 : AccState) (id name : String) (kvs : List (String × JsValue))
    (ds : List Str) (v : JsValue)
    (hid : validateToolUseId id = true)
    (hparse : jsonParse
      ((if kvs.isEmpty then [] else (jsonStringify (.obj kvs)).getD []) ++ ds.flatten)
      = some v) :
    (AnthropicToolUseAccumulator.completeToolUse
      (ds.foldl (fun acc d => AnthropicToolUseAccumulator.addToolUseDelta acc id d)
        (AnthropicToolUseAccumulator.addToolUseStart s0 id name (.obj kvs))) id).1
      = some ⟨id, sanitizeToolName name, v⟩ := by
  have hstart : AnthropicToolUseAccumulator.addToolUseStart s0 id name (.obj kvs) =
      mapSet s0 id ⟨id, sanitizeToolName name,
        if kvs.isEmpty then [] else (jsonStringify (.obj kvs)).getD [], false⟩ := by
    unfold AnthropicToolUseAccumulator.addToolUseStart
    cases kvs <;>
      simp [hid, validateToolInput, jsTypeof, jsIsNull, jsKeysLength, jsEntries]
  have hget := mapGet_mapSet_self s0 id ⟨id, sanitizeToolName name,
    if kvs.isEmpty then [] else (jsonStringify (.obj kvs)).getD [], false⟩
  rw [hstart]
  have hfold := deltaFold_get ds _ id _ hget rfl
  unfold AnthropicToolUseAccumulator.completeToolUse
  rw [hfold]
  simp [hparse]

/-- Witness for C3: the spec §8 scenario — `start(t1, write_to_file, ...)`
with an empty object, deltas splitting a path JSON, then complete. -/
theorem completeToolUse_parses_seed_and_deltas_witness :
    validateToolUseId "t1" = true ∧
    jsonParse ((if ([] : List (String × JsValue)).isEmpty then []
        else (jsonStringify (.obj [])).getD []) ++
        (["\x7b\"path\":\"x".data, ".txt\"\x7d".data] : List Str).flatten)
      = some (.obj [("path", .str "x.txt")]) ∧
    (AnthropicToolUseAccumulator.completeToolUse
      ((["\x7b\"path\":\"x".data, ".txt\"\x7d".data] : List Str).foldl
        (fun acc d => AnthropicToolUseAccumulator.addToolUseDelta acc "t1" d)
        (AnthropicToolUseAccumulator.addToolUseStart [] "t1" "write_to_file" (.obj []))) "t1").1
      = some ⟨"t1", "write_to_file", .obj [("path", .str "x.txt")]⟩ :=
  ⟨rfl, rfl,
    completeToolUse_parses_seed_and_deltas [] "t1" "write_to_file" []
      ["\x7b\"path\":\"x".data, ".txt\"\x7d".data] (.obj [("path", .str "x.txt")]) rfl rfl⟩

/-- C6: completing a registered call whose accumulated raw text does not
parse as JSON returns `null` and leaves the accumulator state unchanged, so
the call stays registered with `completed` still false and a later attempt
can still succeed. -/
theorem completeToolUse_parse_failure_unchanged
    (s : AccState) (id : String) (tu : PendingToolUse)
    (h : mapGet s id = some tu)
    (hp : jsonParse tu.inputJson = none) :
    AnthropicToolUseAccumulator.completeToolUse s id = (none, s) := by
  unfold AnthropicToolUseAccumulator.completeToolUse
  rw [h]
  simp [hp]

/-- Witness for C6: a call started with an empty-object seed has accumulated
text `""`, which does not parse; completing it returns `null` and keeps the
state, and after one more delta the same call completes successfully. -/
theorem completeToolUse_parse_failure_unchanged_witness :
    mapGet (AnthropicToolUseAccumulator.addToolUseStart [] "t1" "write_to_file" (.obj []))
      "t1" = some ⟨"t1", "write_to_file", [], false⟩ ∧
    jsonParse ([] : Str) = none ∧
    AnthropicToolUseAccumulator.completeToolUse
      (AnthropicToolUseAccumulator.addToolUseStart [] "t1" "write_to_file" (.obj [])) "t1"
      = (none, AnthropicToolUseAccumulator.addToolUseStart [] "t1" "write_to_file" (.obj [])) ∧
    (AnthropicToolUseAccumulator.completeToolUse
      (AnthropicToolUseAccumulator.addToolUseDelta
        (AnthropicToolUseAccumulator.addToolUseStart [] "t1" "write_to_file" (.obj []))
        "t1" "\x7b\x7d".data) "t1").1.isSome = true :=
  ⟨rfl, rfl,
    completeToolUse_parse_failure_unchanged _ "t1" ⟨"t1", "write_to_file", [], false⟩ rfl rfl,
    rfl⟩

/-- C5 counterexample: after one completed call, draining twice in
succession with no intervening completions returns the same non-empty
sequence the second time — `AnthropicToolUseAccumulator.getCompletedToolUses`
does not remove the calls it returns. -/
theorem getCompletedToolUses_second_call_not_empty :
    (AnthropicToolUseAccumulator.getCompletedToolUses
      (AnthropicToolUseAccumulator.getCompletedToolUses
        (AnthropicToolUseAccumulator.completeToolUse
          (AnthropicToolUseAccumulator.addToolUseStart [] "t1" "read_file"
            (.obj [("path", .str "a.py")])) "t1").2).2).1
      = [⟨"t1", "read_file", .obj [("path", .str "a.py")]⟩] ∧
    ([(⟨"t1", "read_file", .obj [("path", .str "a.py")]⟩ : AnthropicToolUseChunk)] ≠ []) :=
  ⟨rfl, by simp⟩

/-- C5 amended: the accumulator's drain returns exactly the calls marked
completed, in arrival order, and leaves the accumulator unchanged — a second
drain returns the same sequence; the removal described by the claim is the
behavior of the historical `AnthropicToolHandler.getCompletedToolUses`,
whose second drain does return the empty sequence. -/
theorem getCompletedToolUses_order_and_no_removal (s : AccState) (hs : HandlerState) :
    (AnthropicToolUseAccumulator.getCompletedToolUses s).2 = s ∧
    (AnthropicToolUseAccumulator.getCompletedToolUses
       (AnthropicToolUseAccumulator.getCompletedToolUses s).2).1
      = (AnthropicToolUseAccumulator.getCompletedToolUses s).1 ∧
    ((∀ kv ∈ s, kv.2.completed = true → (jsonParse kv.2.inputJson).isSome = true) →
      ((AnthropicToolUseAccumulator.getCompletedToolUses s).1.map (fun c => c.id))
        = ((s.filter (fun kv => kv.2.completed)).map (fun kv => kv.2.id))) ∧
    ((∀ kv ∈ hs, kv.1 = kv.2.id) →
      (AnthropicToolHandler.getCompletedToolUses
        (AnthropicToolHandler.getCompletedToolUses hs).2).1 = []) := by
  refine ⟨rfl, rfl, ?_, ?_⟩
  · intro hOK
    induction s with
    | nil => simp [AnthropicToolUseAccumulator.getCompletedToolUses]
    | cons kv rest ih =>
        have hrest : ∀ kv ∈ rest, kv.2.completed = true → (jsonParse kv.2.inputJson).isSome = true :=
          fun kv hm => hOK kv (List.mem_cons_of_mem _ hm)
        by_cases hc : kv.2.completed = true
        · obtain ⟨v, hv⟩ := Option.isSome_iff_exists.mp (hOK kv (List.mem_cons_self _ _) hc)
          simpa [AnthropicToolUseAccumulator.getCompletedToolUses, hc, hv]
            using ih hrest
        · simpa [AnthropicToolUseAccumulator.getCompletedToolUses, hc]
            using ih hrest
  · intro hid
    have hrem : ∀ kv ∈ (AnthropicToolHandler.getCompletedToolUses hs).2,
        kv.2.isComplete = false := by
      intro kv hm
      simp only [AnthropicToolHandler.getCompletedToolUses, List.mem_filter] at hm
      obtain ⟨hmem, hnot⟩ := hm
      by_contra hcom
      simp only [Bool.not_eq_false] at hcom
      have : kv.1 ∈ (((hs.map (fun p => p.2)).filter (fun v => v.isComplete)).map
          (fun v => v.id)) := by
        rw [hid kv hmem]
        exact List.mem_map_of_mem _ (List.mem_filter.mpr
          ⟨List.mem_map_of_mem _ hmem, hcom⟩)
      simp [this] at hnot
    show ((AnthropicToolHandler.getCompletedToolUses hs).2.map
        (fun p => p.2)).filter (fun v => v.isComplete) = []
    rw [List.filter_eq_nil_iff]
    intro v hv
    obtain ⟨kv, hkv, hvv⟩ := List.mem_map.mp hv
    simp [← hvv, hrem kv hkv]

/-- Witness for C5 amended: the hypothesis-guarded conjuncts at a concrete
accumulator state (one completed, one pending call) and a concrete handler
state. -/
theorem getCompletedToolUses_order_and_no_removal_witness :
    ((AnthropicToolUseAccumulator.getCompletedToolUses
        [("a", ⟨"a", "read_file", "\x7b\x7d".data, true⟩),
         ("b", ⟨"b", "list_files", [], false⟩)]).1.map (fun c => c.id)) = ["a"] ∧
    (AnthropicToolHandler.getCompletedToolUses
      (AnthropicToolHandler.getCompletedToolUses
        [("a", ⟨"a", "x", .obj [], true, []⟩),
         ("b", ⟨"b", "y", .obj [], false, []⟩)]).2).1 = [] := by
  constructor
  · have h := (getCompletedToolUses_order_and_no_removal
      [("a", ⟨"a", "read_file", "\x7b\x7d".data, true⟩),
       ("b", ⟨"b", "list_files", [], false⟩)] []).2.2.1
      (by
        intro kv hm hc
        simp only [List.mem_cons, List.mem_singleton, List.not_mem_nil] at hm
        rcases hm with rfl | rfl | hF
        · rfl
        · simp at hc
        · exact absurd hF (by simp))
    rw [h]
    rfl
  · exact (getCompletedToolUses_order_and_no_removal []
      [("a", ⟨"a", "x", .obj [], true, []⟩), ("b", ⟨"b", "y", .obj [], false, []⟩)]).2.2.2
      (by
        intro kv hm
        simp only [List.mem_cons, List.mem_singleton, List.not_mem_nil] at hm
        rcases hm with rfl | rfl | hF
        · rfl
        · rfl
        · exact absurd hF (by simp))

/-- C10: `validateToolInput` rejects `null`, `undefined` and the non-object
primitives but accepts every non-null value of object type, arrays included;
hence `addToolUseStart` registers a start whose `initialArguments` is an
array rather than rejecting it. -/
theorem validateToolInput_accepts_arrays :
    validateToolInput .null = false ∧
    validateToolInput .jsUndefined = false ∧
    (∀ b, validateToolInput (.bool b) = false) ∧
    (∀ n, validateToolInput (.num n) = false) ∧
    (∀ s, validateToolInput (.str s) = false) ∧
    (∀ xs, validateToolInput (.arr xs) = true) ∧
    (∀ kvs, validateToolInput (.obj kvs) = true) ∧
    (∀ (s0 : AccState) (id name : String) (xs : List JsValue),
      validateToolUseId id = true →
      mapGet (AnthropicToolUseAccumulator.addToolUseStart s0 id name (.arr xs)) id
        = some ⟨id, sanitizeToolName name,
            if xs.isEmpty then [] else (jsonStringify (.arr xs)).getD [], false⟩) := by
  refine ⟨rfl, rfl, fun b => rfl, fun n => rfl, fun s => rfl, fun xs => rfl, fun kvs => rfl, ?_⟩
  intro s0 id name xs hid
  have hstart : AnthropicToolUseAccumulator.addToolUseStart s0 id name (.arr xs) =
      mapSet s0 id ⟨id, sanitizeToolName name,
        if xs.isEmpty then [] else (jsonStringify (.arr xs)).getD [], false⟩ := by
    unfold AnthropicToolUseAccumulator.addToolUseStart
    cases xs <;>
      simp [hid, validateToolInput, jsTypeof, jsIsNull, jsKeysLength, jsEntries]
  rw [hstart]
  exact mapGet_mapSet_self s0 id _

/-- Witness for C10: a start event carrying the array `["a"]` as its
arguments is registered with the serialized array as seed. -/
theorem validateToolInput_accepts_arrays_witness :
    validateToolUseId "t1" = true ∧
    mapGet (AnthropicToolUseAccumulator.addToolUseStart [] "t1" "read_file"
        (.arr [.str "a"])) "t1"
      = some ⟨"t1", "read_file",
          if ([JsValue.str "a"] : List JsValue).isEmpty then []
          else (jsonStringify (.arr [.str "a"])).getD [], false⟩ :=
  ⟨rfl, validateToolInput_accepts_arrays.2.2.2.2.2.2.2 [] "t1" "read_file" [.str "a"] rfl⟩

/-- C4 counterexample: a structured call whose input holds an `args` array of
objects renders each element inside a `<file>` wrapper, not the `<item>`
wrapper the claim describes — the output contains no `<item>` at all. -/
theorem convertAnthropicToolUseToXml_args_no_item_wrapper :
    convertAnthropicToolUseToXml "read_file"
        (.obj [("args", .arr [.obj [("path", .str "a.py")]])])
      = "<read_file>\n<args>\n<file>\n<path>a.py</path>\n</file>\n</args>\n</read_file>".data
    ∧ containsSubstr
        (convertAnthropicToolUseToXml "read_file"
          (.obj [("args", .arr [.obj [("path", .str "a.py")]])]))
        "<item>".data = false :=
  ⟨rfl, rfl⟩

/-- C4 amended: when the input's `args` key holds an array, the bridge
renders an `<args>` wrapper containing one `<file>…</file>` child per array
element, and in this branch every other entry of the input is ignored — the
rendering agrees with that of an input holding only the `args` entry. -/
theorem convertAnthropicToolUseToXml_args_array_renders_file_wrappers
    (name : String) (kvs : List (String × JsValue)) (argsList : List JsValue)
    (h : jsGet (.obj kvs) "args" = .arr argsList) :
    convertAnthropicToolUseToXml name (.obj kvs)
      = '<' :: name.data ++ '>' :: '\n' ::
        ("<args>\n".data ++ (argsList.map xmlFileItem).flatten ++ "</args>\n".data)
        ++ '<' :: '/' :: name.data ++ ['>']
    ∧ convertAnthropicToolUseToXml name (.obj kvs)
      = convertAnthropicToolUseToXml name (.obj [("args", .arr argsList)]) := by
  have h2 : jsGet (.obj [("args", .arr argsList)]) "args" = .arr argsList := by
    simp [jsGet, List.find?]
  have e1 : convertAnthropicToolUseToXml name (.obj kvs)
      = '<' :: name.data ++ '>' :: '\n' ::
        ("<args>\n".data ++ (argsList.map xmlFileItem).flatten ++ "</args>\n".data)
        ++ '<' :: '/' :: name.data ++ ['>'] := by
    simp [convertAnthropicToolUseToXml, h]
  have e2 : convertAnthropicToolUseToXml name (.obj [("args", .arr argsList)])
      = '<' :: name.data ++ '>' :: '\n' ::
        ("<args>\n".data ++ (argsList.map xmlFileItem).flatten ++ "</args>\n".data)
        ++ '<' :: '/' :: name.data ++ ['>'] := by
    simp [convertAnthropicToolUseToXml, h2]
  exact ⟨e1, e1.trans e2.symm⟩

/-- Witness for C4 amended: the two-file `read_file` shape. -/
theorem convertAnthropicToolUseToXml_args_array_renders_file_wrappers_witness :
    jsGet (.obj [("args", .arr [.obj [("path", .str "a.py")], .obj [("path", .str "b.py")]])])
        "args" = .arr [.obj [("path", .str "a.py")], .obj [("path", .str "b.py")]] ∧
    convertAnthropicToolUseToXml "read_file"
        (.obj [("args", .arr [.obj [("path", .str "a.py")], .obj [("path", .str "b.py")]])])
      = '<' :: "read_file".data ++ '>' :: '\n' ::
        ("<args>\n".data ++
          (([.obj [("path", .str "a.py")], .obj [("path", .str "b.py")]] : List JsValue).map
            xmlFileItem).flatten ++ "</args>\n".data)
        ++ '<' :: '/' :: "read_file".data ++ ['>'] :=
  ⟨rfl,
    (convertAnthropicToolUseToXml_args_array_renders_file_wrappers "read_file"
      [("args", .arr [.obj [("path", .str "a.py")], .obj [("path", .str "b.py")]])]
      [.obj [("path", .str "a.py")], .obj [("path", .str "b.py")]] rfl).1⟩

/-- C9: the scenario round trip — `read_file` with `{"path": "a.py"}`
bridges to exactly `<read_file>\n<path>\na.py\n</path>\n</read_file>`, and
the tag parser recovers a completed `read_file` invocation whose `path`
parameter is `a.py`. -/
theorem readFile_bridge_roundtrip :
    convertAnthropicToolUseToXml "read_file" (.obj [("path", .str "a.py")])
      = "<read_file>\n<path>\na.py\n</path>\n</read_file>".data ∧
    parseAssistantMessage "<read_file>\n<path>\na.py\n</path>\n</read_file>".data
      = [.toolUse ⟨"read_file", [("path", "a.py")], false⟩] :=
  ⟨rfl, by decide⟩


theorem not_prefix_of_ne_head (p c : Char) (ps cs : Str) (h : c ≠ p) :
    ¬ (p :: ps <+: c :: cs) := by
  intro hp
  rcases hp with ⟨t, ht⟩
  injection ht with h1 _
  exact h h1.symm

theorem isPrefixOf_self_append (p l : Str) : p.isPrefixOf (p ++ l) = true := by
  induction p with
  | nil => simp [List.isPrefixOf]
  | cons c cs ih => simp [List.isPrefixOf, ih]

theorem replaceThinkOpenFuel_of_no_lt (fuel : Nat) (l : Str) (h : '<' ∉ l) :
    replaceThinkOpenFuel fuel l = l := by
  induction fuel generalizing l with
  | zero => rfl
  | succ f ih =>
      cases l with
      | nil => rfl
      | cons c cs =>
          have hc : c ≠ '<' := fun hEq => h (by simp [hEq])
          have hcs : '<' ∉ cs := fun hm => h (List.mem_cons_of_mem _ hm)
          have hpre : ¬ (thinkOpenTag <+: c :: cs) := by
            have hT : thinkOpenTag = '<' :: "thinking>".data := rfl
            rw [hT]
            exact not_prefix_of_ne_head _ _ _ _ hc
          simp [replaceThinkOpenFuel, hpre, ih cs hcs]

theorem replaceThinkOpenFuel_single (u w : Str) (fuel : Nat)
    (hw : '<' ∉ w) (hws : dropOneWs w = w)
    (hu : '<' ∉ u) (hfuel : u.length < fuel) :
    replaceThinkOpenFuel fuel (u ++ (thinkOpenTag ++ w)) = u ++ w := by
  induction u generalizing fuel with
  | nil =>
      cases fuel with
      | zero => omega
      | succ f =>
          show replaceThinkOpenFuel (f + 1) ('<' :: ("thinking>".data ++ w)) = w
          have hpre : thinkOpenTag.isPrefixOf ('<' :: ("thinking>".data ++ w)) = true := by
            rw [show '<' :: ("thinking>".data ++ w) = thinkOpenTag ++ w from rfl]
            exact isPrefixOf_self_append _ _
          have hdrop : List.drop 9 ("thinking>".data ++ w) = w := by
            rw [show (9 : Nat) = ("thinking>".data : Str).length from rfl]
            exact List.drop_left _ _
          simp only [replaceThinkOpenFuel]
          rw [if_pos hpre, hdrop, hws]
          exact replaceThinkOpenFuel_of_no_lt f w hw
  | cons c u' ih =>
      cases fuel with
      | zero => omega
      | succ f =>
          have hc : c ≠ '<' := fun hEq => hu (by simp [hEq])
          have hu' : '<' ∉ u' := fun hm => hu (List.mem_cons_of_mem _ hm)
          have hlen : u'.length < f := by
            simp only [List.length_cons] at hfuel
            omega
          have hrec := ih f hu' hlen
          have hpre : ¬ (thinkOpenTag <+: c :: (u' ++ (thinkOpenTag ++ w))) := by
            have hT : thinkOpenTag = '<' :: "thinking>".data := rfl
            rw [hT]
            exact not_prefix_of_ne_head _ _ _ _ hc
          show replaceThinkOpenFuel (f + 1) (c :: (u' ++ (thinkOpenTag ++ w))) = c :: (u' ++ w)
          simp only [replaceThinkOpenFuel]
          rw [if_neg]
          · rw [hrec]
          · simpa using hpre

theorem replaceThinkCloseFuel_of_no_lt (fuel : Nat) (l : Str) (h : '<' ∉ l) :
    replaceThinkCloseFuel fuel l = l := by
  induction fuel generalizing l with
  | zero => rfl
  | succ f ih =>
      cases l with
      | nil => rfl
      | cons c cs =>
          have hc : c ≠ '<' := fun hEq => h (by simp [hEq])
          have hcs : '<' ∉ cs := fun hm => h (List.mem_cons_of_mem _ hm)
          have hpre1 : ¬ (thinkCloseTag <+: cs) := by
            cases cs with
            | nil =>
                intro hp
                rcases hp with ⟨t, ht⟩
                simp [thinkCloseTag] at ht
            | cons d ds =>
                have hd : d ≠ '<' := fun hEq => hcs (by simp [hEq])
                have hT : thinkCloseTag = '<' :: "/thinking>".data := rfl
                rw [hT]
                exact not_prefix_of_ne_head _ _ _ _ hd
          have hpre2 : ¬ (thinkCloseTag <+: c :: cs) := by
            have hT : thinkCloseTag = '<' :: "/thinking>".data := rfl
            rw [hT]
            exact not_prefix_of_ne_head _ _ _ _ hc
          simp [replaceThinkCloseFuel, hpre1, hpre2, ih cs hcs]

theorem replaceThinkCloseFuel_single (u w : Str) (fuel : Nat)
    (hw : '<' ∉ w)
    (hu : '<' ∉ u) (hlast : ∀ c, u.getLast? = some c → isJsWs c = false)
    (hfuel : u.length < fuel) :
    replaceThinkCloseFuel fuel (u ++ (thinkCloseTag ++ w)) = u ++ w := by
  induction u generalizing fuel with
  | nil =>
      cases fuel with
      | zero => omega
      | succ f =>
          show replaceThinkCloseFuel (f + 1) ('<' :: ("/thinking>".data ++ w)) = w
          have hno1 : ¬ (isJsWs '<' = true ∧
              thinkCloseTag.isPrefixOf ("/thinking>".data ++ w) = true) :=
            fun hand => absurd hand.1 (by decide)
          have hpre2 : thinkCloseTag.isPrefixOf ('<' :: ("/thinking>".data ++ w)) = true := by
            rw [show '<' :: ("/thinking>".data ++ w) = thinkCloseTag ++ w from rfl]
            exact isPrefixOf_self_append _ _
          have hdrop : List.drop 10 ("/thinking>".data ++ w) = w := by
            rw [show (10 : Nat) = ("/thinking>".data : Str).length from rfl]
            exact List.drop_left _ _
          simp only [replaceThinkCloseFuel]
          rw [if_neg hno1, if_pos hpre2, hdrop]
          exact replaceThinkCloseFuel_of_no_lt f w hw
  | cons c u' ih =>
      cases fuel with
      | zero => omega
      | succ f =>
          have hc : c ≠ '<' := fun hEq => hu (by simp [hEq])
          have hu' : '<' ∉ u' := fun hm => hu (List.mem_cons_of_mem _ hm)
          have hlen : u'.length < f := by
            simp only [List.length_cons] at hfuel
            omega
          have hlast' : ∀ e, u'.getLast? = some e → isJsWs e = false := by
            intro e he
            cases u' with
            | nil => simp at he
            | cons d ds =>
                refine hlast e ?_
                rw [List.getLast?_cons_cons]
                exact he
          have hrec := ih f hu' hlast' hlen
          have hno1 : ¬ (isJsWs c = true ∧
              thinkCloseTag.isPrefixOf (u' ++ (thinkCloseTag ++ w)) = true) := by
            cases u' with
            | nil =>
                exact fun hand => absurd hand.1 (by simp [hlast c rfl])
            | cons d ds =>
                have hd : d ≠ '<' := fun hEq => hu' (by simp [hEq])
                intro hand
                have hp := List.isPrefixOf_iff_prefix.mp hand.2
                rw [show ((d :: ds) ++ (thinkCloseTag ++ w))
                    = d :: (ds ++ (thinkCloseTag ++ w)) from rfl] at hp
                have hT : thinkCloseTag = '<' :: "/thinking>".data := rfl
                rw [hT] at hp
                exact not_prefix_of_ne_head _ _ _ _ hd hp
          have hno2 : ¬ (thinkCloseTag.isPrefixOf (c :: (u' ++ (thinkCloseTag ++ w))) = true) := by
            intro hand
            have hp := List.isPrefixOf_iff_prefix.mp hand
            have hT : thinkCloseTag = '<' :: "/thinking>".data := rfl
            rw [hT] at hp
            exact not_prefix_of_ne_head _ _ _ _ hc hp
          show replaceThinkCloseFuel (f + 1) (c :: (u' ++ (thinkCloseTag ++ w))) = c :: (u' ++ w)
          simp only [replaceThinkCloseFuel]
          rw [if_neg hno1, if_neg hno2, hrec]

theorem lastIndexOf_eq_none (l : Str) (c : Char) (h : c ∉ l) :
    lastIndexOf l c = none := by
  induction l with
  | nil => rfl
  | cons x rest ih =>
      have hx : x ≠ c := fun hEq => h (by simp [hEq])
      have hrest : c ∉ rest := fun hm => h (List.mem_cons_of_mem _ hm)
      simp [lastIndexOf, ih hrest, hx]

theorem lastIndexOf_append_cons (a b : Str) (h : '<' ∉ b) :
    lastIndexOf (a ++ '<' :: b) '<' = some a.length := by
  induction a with
  | nil => simp [lastIndexOf, lastIndexOf_eq_none b '<' h]
  | cons x rest ih => simp [lastIndexOf, ih]

theorem contains_eq_false_of_not_mem (l : Str) (c : Char) (h : c ∉ l) :
    l.contains c = false := by
  induction l with
  | nil => rfl
  | cons x rest ih =>
      have hx : c ≠ x := fun hEq => h (by simp [hEq])
      have hrest : c ∉ rest := fun hm => h (List.mem_cons_of_mem _ hm)
      simp [List.contains_cons, ih hrest, hx, hrest]

theorem stripDanglingTag_decomp (a b : Str) (hb1 : '<' ∉ b) (hb2 : '>' ∉ b) :
    stripDanglingTag (a ++ '<' :: b) =
      (if b = [] ∨ b = ['/'] ∨
          ((jsTrim (if b.head? = some '/' then b.drop 1 else b)) ≠ [] ∧
           (jsTrim (if b.head? = some '/' then b.drop 1 else b)).all isTagNameChar = true)
       then jsTrim a else a ++ '<' :: b) := by
  have hli := lastIndexOf_append_cons a b hb1
  have hcont : (('<' :: b).contains '>') = false := by
    refine contains_eq_false_of_not_mem _ _ ?_
    intro hm
    rcases List.mem_cons.mp hm with h1 | h2
    · simp at h1
    · exact hb2 h2
  unfold stripDanglingTag
  rw [hli]
  simp only [List.drop_left, List.take_left, hcont]
  rcases b with _ | ⟨c, b'⟩
  · simp
  · by_cases hc : c = '/'
    · subst hc
      rcases b' with _ | ⟨d, b''⟩
      · simp
      · simp [List.isPrefixOf, jsTrim]
    · simp only [List.isPrefixOf]
      simp [hc, Ne.symm hc]

/-- C8 counterexample: in `"hello < abc"` the fragment after the last `<` is
`" abc"` — not exactly `<` or `</` and not a pure run of alphabetic or
underscore characters (it contains a space) — yet the dispatcher's text
processing strips it (the code trims the fragment before the alphabetic
test), emitting `"hello"` instead of leaving the text unchanged. -/
theorem presentTextContent_strips_nonalpha_fragment :
    (" abc".data.all isTagNameChar = false) ∧
    ("< abc".data ≠ ['<']) ∧
    ("< abc".data ≠ ['<', '/']) ∧
    presentTextContent "hello < abc".data = "hello".data ∧
    "hello < abc".data ≠ "hello".data := by
  refine ⟨by decide, by decide, by decide, by decide, by decide⟩

/-- C8 amended: thinking markers are removed from the presented text (shown
for a single occurrence of each marker between `<`-free context), and a
trailing fragment after the last unclosed `<` is stripped — with the text
then trimmed at both ends — exactly when the fragment is `<` or `</` or its
content after the bracket(s), once trimmed of surrounding whitespace, is a
non-empty run of alphabetic/underscore characters; otherwise the text is
left unchanged. -/
theorem presentTextContent_amended :
    (∀ u w : Str, '<' ∉ u → '<' ∉ w → dropOneWs w = w →
       replaceThinkOpen (u ++ (thinkOpenTag ++ w)) = u ++ w) ∧
    (∀ u w : Str, '<' ∉ u → '<' ∉ w →
       (∀ c, u.getLast? = some c → isJsWs c = false) →
       replaceThinkClose (u ++ (thinkCloseTag ++ w)) = u ++ w) ∧
    (∀ a b : Str, '<' ∉ b → '>' ∉ b →
       replaceThinkClose (replaceThinkOpen (a ++ '<' :: b)) = a ++ '<' :: b →
       presentTextContent (a ++ '<' :: b) =
         (if b = [] ∨ b = ['/'] ∨
             ((jsTrim (if b.head? = some '/' then b.drop 1 else b)) ≠ [] ∧
              (jsTrim (if b.head? = some '/' then b.drop 1 else b)).all isTagNameChar = true)
          then jsTrim a else a ++ '<' :: b)) := by
  refine ⟨?_, ?_, ?_⟩
  · intro u w hu hw hws
    unfold replaceThinkOpen
    refine replaceThinkOpenFuel_single u w _ hw hws hu ?_
    simp [List.length_append]
    omega
  · intro u w hu hw hlast
    unfold replaceThinkClose
    refine replaceThinkCloseFuel_single u w _ hw hu hlast ?_
    simp [List.length_append]
    omega
  · intro a b hb1 hb2 hthink
    have hne : (a ++ '<' :: b).isEmpty = false := by
      cases a <;> simp [List.isEmpty]
    unfold presentTextContent
    rw [hne]
    simp only [Bool.false_eq_true, if_false, hthink]
    exact stripDanglingTag_decomp a b hb1 hb2

/-- Witness for C8 amended: instances of all three parts — removing a
`<thinking>` marker, removing a `</thinking>` marker, and stripping the
dangling fragment of `"hi <tag"`. -/
theorem presentTextContent_amended_witness :
    replaceThinkOpen ("ab ".data ++ (thinkOpenTag ++ "cd".data)) = "ab ".data ++ "cd".data ∧
    replaceThinkClose ("ab".data ++ (thinkCloseTag ++ " cd".data)) = "ab".data ++ " cd".data ∧
    presentTextContent ("hi ".data ++ '<' :: "tag".data) = "hi".data := by
  refine ⟨?_, ?_, ?_⟩
  · exact presentTextContent_amended.1 "ab ".data "cd".data
      (by decide) (by decide) (by decide)
  · exact presentTextContent_amended.2.1 "ab".data " cd".data
      (by decide) (by decide) (by intro c hc; cases hc; decide)
  · have h := presentTextContent_amended.2.2 "hi ".data "tag".data
      (by decide) (by decide) (by decide)
    rw [h]
    decide

/-- C7: invoked while the lock is held (and not aborted), the dispatcher
only sets the pending-updates flag and returns — same outcome, no events,
cursor and all other fields untouched — and a further locked invocation
from the resulting state produces the identical state again, so any number
of stream updates during one locked pass coalesce into the single flag that
triggers exactly one follow-up pass. -/
theorem presentAnthropicAssistantMessage_locked_coalesces
    (fuel : Nat) (env : DispatchEnv) (s : TaskState)
    (hab : s.abort = false) (hlk : s.presentAssistantMessageLocked = true) :
    presentAnthropicAssistantMessage (fuel + 1) env s =
      some ⟨.normal, { s with presentAssistantMessageHasPendingUpdates := true }, []⟩ ∧
    presentAnthropicAssistantMessage (fuel + 1) env
        { s with presentAssistantMessageHasPendingUpdates := true } =
      some ⟨.normal, { s with presentAssistantMessageHasPendingUpdates := true }, []⟩ := by
  constructor <;> simp [presentAnthropicAssistantMessage, hab, hlk]

/-- Witness for C7: a concrete locked state. -/
theorem presentAnthropicAssistantMessage_locked_coalesces_witness :
    presentAnthropicAssistantMessage 5 (fun _ => ⟨false, none, .finishes false none⟩)
        ⟨false, true, false, 0, [], false, false, false, false, [], 0⟩ =
      some ⟨.normal, ⟨false, true, true, 0, [], false, false, false, false, [], 0⟩, []⟩ ∧
    presentAnthropicAssistantMessage 5 (fun _ => ⟨false, none, .finishes false none⟩)
        ⟨false, true, true, 0, [], false, false, false, false, [], 0⟩ =
      some ⟨.normal, ⟨false, true, true, 0, [], false, false, false, false, [], 0⟩, []⟩ :=
  presentAnthropicAssistantMessage_locked_coalesces 4
    (fun _ => ⟨false, none, .finishes false none⟩)
    ⟨false, true, false, 0, [], false, false, false, false, [], 0⟩ rfl rfl

/-- C1 (divergence theorem): when the permission validator throws for the
tool block at the cursor, the dispatcher returns normally from the `return`
at line 215 with `presentAssistantMessageLocked` still `true` (and the
cursor not advanced) — the lock is not cleared on this exit path, contrary
to the claim's guaranteed release. -/
theorem presentAnthropic_validation_failure_leaves_lock_held
    (fuel : Nat) (env : DispatchEnv) (s : TaskState)
    (id name : String) (input : JsValue) (unf : Bool) (inv : TagToolInvocation) (msg : Str)
    (hab : s.abort = false) (hlk : s.presentAssistantMessageLocked = false)
    (hblock : s.assistantMessageContent.get? s.currentStreamingContentIndex
      = some (.anthropicToolUse id name input unf))
    (hrej : s.didRejectTool = false) (hused : s.didAlreadyUseTool = false)
    (hfind : (parseAssistantMessage (convertAnthropicToolUseToXml name input)).find?
        (fun b => match b with | .toolUse _ => true | _ => false) = some (.toolUse inv))
    (hval : (env s.currentStreamingContentIndex).validateFails = some msg) :
    ∃ s', presentAnthropicAssistantMessage (fuel + 1) env s
        = some ⟨.normal, s',
            (if inv.name ≠ "browser_action" then [.browserClosed] else [])
              ++ (if ¬ inv.unfinished then [.toolUsageRecorded inv.name] else [])⟩ ∧
      s'.presentAssistantMessageLocked = true ∧
      s'.didAlreadyUseTool = true ∧
      s'.currentStreamingContentIndex = s.currentStreamingContentIndex := by
  have hlt : s.currentStreamingContentIndex < s.assistantMessageContent.length := by
    have := List.get?_eq_some.mp hblock
    exact this.1
  have hge : ¬ (s.currentStreamingContentIndex ≥ s.assistantMessageContent.length) := by
    omega
  have heq : presentAnthropicAssistantMessage (fuel + 1) env s
      = some ⟨.normal,
          { s with
            presentAssistantMessageLocked := true,
            presentAssistantMessageHasPendingUpdates := false,
            assistantMessageContent := s.assistantMessageContent.set
              s.currentStreamingContentIndex (.toolUse inv),
            consecutiveMistakeCount := s.consecutiveMistakeCount + 1,
            userMessageContent := s.userMessageContent ++
              [convertXmlResultToAnthropicToolResponse id (formatResponseToolError msg) true],
            didAlreadyUseTool := true },
          (if inv.name ≠ "browser_action" then [.browserClosed] else [])
            ++ (if ¬ inv.unfinished then [.toolUsageRecorded inv.name] else [])⟩ := by
    simp only [presentAnthropicAssistantMessage, hab, hlk, Bool.false_eq_true, if_false,
      hge, hblock]
    simp only [presentAnthropicToolUseBlock, hrej, hused, Bool.or_self, Bool.false_eq_true,
      if_false, hfind, hval]
    simp
  exact ⟨_, heq, rfl, rfl, rfl⟩

/-- Witness for C1: a one-block `read_file` turn whose validation fails;
the run ends normally with the lock still held. -/
theorem presentAnthropic_validation_failure_leaves_lock_held_witness :
    ∃ s', presentAnthropicAssistantMessage 10
        (fun _ => ⟨false, some "disallowed in mode".data, .finishes false none⟩)
        ⟨false, false, false, 0,
          [Block.anthropicToolUse "toolu_1" "read_file" (.obj [("path", .str "a.py")]) false],
          true, false, false, false, [], 0⟩
      = some ⟨.normal, s', [DispatchEvent.browserClosed,
          DispatchEvent.toolUsageRecorded "read_file"]⟩ ∧
      s'.presentAssistantMessageLocked = true ∧
      s'.didAlreadyUseTool = true ∧
      s'.currentStreamingContentIndex = 0 :=
  presentAnthropic_validation_failure_leaves_lock_held 9
    (fun _ => ⟨false, some "disallowed in mode".data, .finishes false none⟩)
    ⟨false, false, false, 0,
      [Block.anthropicToolUse "toolu_1" "read_file" (.obj [("path", .str "a.py")]) false],
      true, false, false, false, [], 0⟩
    "toolu_1" "read_file" (.obj [("path", .str "a.py")]) false
    ⟨"read_file", [("path", "a.py")], false⟩ "disallowed in mode".data
    rfl rfl rfl rfl rfl rfl rfl

theorem presentTextBlock_flagged (be : BlockEnv) (s : TaskState) (content : Str) (unf : Bool)
    (h : (s.didRejectTool || s.didAlreadyUseTool) = true) :
    presentTextBlock be s content unf = .cont s [] := by
  simp [presentTextBlock, h]

theorem presentAnthropicToolUseBlock_flagged (be : BlockEnv) (s : TaskState)
    (id name : String) (input : JsValue)
    (h : (s.didRejectTool || s.didAlreadyUseTool) = true) :
    presentAnthropicToolUseBlock be s id name input = .cont s [] := by
  simp [presentAnthropicToolUseBlock, h]

theorem run_flagged_step (f : Nat) (env : DispatchEnv) (s : TaskState) (block : Block)
    (hab : s.abort = false) (hlk : s.presentAssistantMessageLocked = false)
    (hflagB : (s.didRejectTool || s.didAlreadyUseTool) = true)
    (hlt : s.currentStreamingContentIndex < s.assistantMessageContent.length)
    (hblock : s.assistantMessageContent.get? s.currentStreamingContentIndex = some block)
    (hnl : ∀ inv, block ≠ Block.toolUse inv) :
    presentAnthropicAssistantMessage (f + 1) env s =
      (if s.currentStreamingContentIndex + 1 < s.assistantMessageContent.length then
        presentAnthropicAssistantMessage f env
          { s with presentAssistantMessageLocked := false,
                   presentAssistantMessageHasPendingUpdates := false,
                   currentStreamingContentIndex := s.currentStreamingContentIndex + 1 }
      else
        some ⟨.normal,
          { s with presentAssistantMessageLocked := false,
                   presentAssistantMessageHasPendingUpdates := false,
                   userMessageContentReady := true,
                   currentStreamingContentIndex := s.currentStreamingContentIndex + 1 }, []⟩) := by
  have hge : ¬ (s.currentStreamingContentIndex ≥ s.assistantMessageContent.length) := by omega
  have hflagP : s.didRejectTool = true ∨ s.didAlreadyUseTool = true := by
    simpa using hflagB
  cases block with
  | toolUse inv => exact absurd rfl (hnl inv)
  | text content unf =>
      simp only [presentAnthropicAssistantMessage, presentTextBlock, hab, hlk,
        Bool.false_eq_true, if_false, hge, hblock, hflagB, if_true]
      rw [if_pos (by simpa using Or.inr hflagP)]
      by_cases hc : s.currentStreamingContentIndex + 1 < s.assistantMessageContent.length
      · have hne : ¬ (s.currentStreamingContentIndex
            = s.assistantMessageContent.length - 1) := by omega
        simp only [hne, if_false, hc, if_true]
        cases hrun : presentAnthropicAssistantMessage f env
            { s with presentAssistantMessageLocked := false,
                     presentAssistantMessageHasPendingUpdates := false,
                     currentStreamingContentIndex := s.currentStreamingContentIndex + 1 } with
        | none => simp
        | some r => simp
      · have heq2 : s.currentStreamingContentIndex
            = s.assistantMessageContent.length - 1 := by omega
        simp only [hc, if_false]
        rw [if_pos heq2]
        simp
        exact fun hcc => absurd hcc hc
  | anthropicToolUse id name input unf =>
      simp only [presentAnthropicAssistantMessage, presentAnthropicToolUseBlock, hab, hlk,
        Bool.false_eq_true, if_false, hge, hblock, hflagB, if_true]
      rw [if_pos (by simpa using Or.inr hflagP)]
      by_cases hc : s.currentStreamingContentIndex + 1 < s.assistantMessageContent.length
      · have hne : ¬ (s.currentStreamingContentIndex
            = s.assistantMessageContent.length - 1) := by omega
        simp only [hne, if_false, hc, if_true]
        cases hrun : presentAnthropicAssistantMessage f env
            { s with presentAssistantMessageLocked := false,
                     presentAssistantMessageHasPendingUpdates := false,
                     currentStreamingContentIndex := s.currentStreamingContentIndex + 1 } with
        | none => simp
        | some r => simp
      · have heq2 : s.currentStreamingContentIndex
            = s.assistantMessageContent.length - 1 := by omega
        simp only [hc, if_false]
        rw [if_pos heq2]
        simp
        exact fun hcc => absurd hcc hc

theorem run_flagged_no_handler :
    ∀ (fuel : Nat) (env : DispatchEnv) (s : TaskState) (r : DispatchResult),
      (s.didRejectTool = true ∨ s.didAlreadyUseTool = true) →
      presentAnthropicAssistantMessage fuel env s = some r →
      countHandlerEvents r.events = 0 := by
  intro fuel
  induction fuel with
  | zero =>
      intro env s r _ hrun
      simp [presentAnthropicAssistantMessage] at hrun
  | succ f ih =>
      intro env s r hflag hrun
      have hflagB : (s.didRejectTool || s.didAlreadyUseTool) = true := by
        rcases hflag with h | h <;> simp [h]
      by_cases hab : s.abort = true
      · simp only [presentAnthropicAssistantMessage, hab, if_true, Option.some.injEq] at hrun
        subst hrun
        rfl
      · rw [Bool.not_eq_true] at hab
        by_cases hlk : s.presentAssistantMessageLocked = true
        · simp only [presentAnthropicAssistantMessage, hab, hlk, Bool.false_eq_true,
            if_false, if_true, Option.some.injEq] at hrun
          subst hrun
          rfl
        · rw [Bool.not_eq_true] at hlk
          by_cases hend : s.currentStreamingContentIndex ≥ s.assistantMessageContent.length
          · simp only [presentAnthropicAssistantMessage, hab, hlk, Bool.false_eq_true,
              if_false, hend, if_true, Option.some.injEq] at hrun
            subst hrun
            rfl
          · have hlt : s.currentStreamingContentIndex
                < s.assistantMessageContent.length := by omega
            have hblock := List.get?_eq_get hlt
            set block := s.assistantMessageContent.get
              ⟨s.currentStreamingContentIndex, hlt⟩ with hbEq
            rcases hbk : block with ⟨content, unf⟩ | ⟨id, name, input, unf⟩ | inv
            · rw [run_flagged_step f env s _ hab hlk hflagB hlt (hbk ▸ hblock)
                (by intro inv h; cases h)] at hrun
              split at hrun
              · exact ih env
                  { s with presentAssistantMessageLocked := false,
                           presentAssistantMessageHasPendingUpdates := false,
                           currentStreamingContentIndex := s.currentStreamingContentIndex + 1 }
                  r hflag hrun
              · simp only [Bool.false_eq_true, if_false, Option.some.injEq] at hrun
                subst hrun
                rfl
            · rw [run_flagged_step f env s _ hab hlk hflagB hlt (hbk ▸ hblock)
                (by intro inv h; cases h)] at hrun
              split at hrun
              · exact ih env
                  { s with presentAssistantMessageLocked := false,
                           presentAssistantMessageHasPendingUpdates := false,
                           currentStreamingContentIndex := s.currentStreamingContentIndex + 1 }
                  r hflag hrun
              · simp only [Bool.false_eq_true, if_false, Option.some.injEq] at hrun
                subst hrun
                rfl
            · simp only [presentAnthropicAssistantMessage, hab, hlk, Bool.false_eq_true,
                if_false, hend, hbk ▸ hblock, Option.some.injEq] at hrun
              subst hrun
              rfl

theorem run_flagged_advances :
    ∀ (fuel : Nat) (env : DispatchEnv) (s : TaskState),
      s.abort = false → s.presentAssistantMessageLocked = false →
      (s.didRejectTool = true ∨ s.didAlreadyUseTool = true) →
      (∀ inv, Block.toolUse inv ∉ s.assistantMessageContent) →
      s.currentStreamingContentIndex ≤ s.assistantMessageContent.length →
      s.assistantMessageContent.length < s.currentStreamingContentIndex + fuel →
      ∃ s', presentAnthropicAssistantMessage fuel env s = some ⟨.normal, s', []⟩ ∧
        s'.currentStreamingContentIndex = s.assistantMessageContent.length ∧
        s'.assistantMessageContent = s.assistantMessageContent ∧
        s'.userMessageContent = s.userMessageContent ∧
        s'.presentAssistantMessageLocked = false ∧
        s'.didRejectTool = s.didRejectTool ∧
        s'.didAlreadyUseTool = s.didAlreadyUseTool := by
  intro fuel
  induction fuel with
  | zero =>
      intro env s _ _ _ _ hle hfuel
      omega
  | succ f ih =>
      intro env s hab hlk hflag hnl hle hfuel
      have hflagB : (s.didRejectTool || s.didAlreadyUseTool) = true := by
        rcases hflag with h | h <;> simp [h]
      by_cases hend : s.currentStreamingContentIndex ≥ s.assistantMessageContent.length
      · have hidx : s.currentStreamingContentIndex = s.assistantMessageContent.length := by
          omega
        by_cases hdc : s.didCompleteReadingStream = true
        · refine ⟨{ s with
                    presentAssistantMessageLocked := false,
                    presentAssistantMessageHasPendingUpdates := false,
                    userMessageContentReady := true },
            ?_, hidx, rfl, rfl, rfl, rfl, rfl⟩
          simp [presentAnthropicAssistantMessage, hab, hlk, hend, hdc]
        · rw [Bool.not_eq_true] at hdc
          refine ⟨{ s with
                    presentAssistantMessageLocked := false,
                    presentAssistantMessageHasPendingUpdates := false },
            ?_, hidx, rfl, rfl, rfl, rfl, rfl⟩
          simp [presentAnthropicAssistantMessage, hab, hlk, hend, hdc]
      · have hlt : s.currentStreamingContentIndex < s.assistantMessageContent.length := by
          omega
        have hblock := List.get?_eq_get hlt
        have hnlb : ∀ inv, s.assistantMessageContent.get
            ⟨s.currentStreamingContentIndex, hlt⟩ ≠ Block.toolUse inv := by
          intro inv heq
          exact hnl inv (heq ▸ List.get_mem _ _ _)
        rw [run_flagged_step f env s _ hab hlk hflagB hlt hblock hnlb]
        by_cases hc : s.currentStreamingContentIndex + 1
            < s.assistantMessageContent.length
        · rw [if_pos hc]
          obtain ⟨s', hrun, h1, h2, h3, h4, h5, h6⟩ := ih env
            { s with presentAssistantMessageLocked := false,
                     presentAssistantMessageHasPendingUpdates := false,
                     currentStreamingContentIndex := s.currentStreamingContentIndex + 1 }
            hab rfl hflag hnl (by simpa using hc.le) (by simp; omega)
          exact ⟨s', hrun, h1, h2, h3, h4, h5, h6⟩
        · rw [if_neg hc]
          refine ⟨_, rfl, ?_, rfl, rfl, rfl, rfl, rfl⟩
          show s.currentStreamingContentIndex + 1 = s.assistantMessageContent.length
          omega

theorem countHandlerEvents_append (a b : List DispatchEvent) :
    countHandlerEvents (a ++ b) = countHandlerEvents a + countHandlerEvents b := by
  simp [countHandlerEvents, List.filter_append]

theorem countHandlerEvents_ite_browser (c : Prop) [Decidable c] :
    countHandlerEvents (if c then [DispatchEvent.browserClosed] else []) = 0 := by
  split <;> rfl

theorem countHandlerEvents_ite_usage (c : Prop) [Decidable c] (n : String) :
    countHandlerEvents (if c then [DispatchEvent.toolUsageRecorded n] else []) = 0 := by
  split <;> rfl

theorem run_flagged_no_handler_of_run (f : Nat) (env : DispatchEnv) (s : TaskState)
    (r : DispatchResult)
    (hrun : presentAnthropicAssistantMessage f env s = some r)
    (hflag : s.didRejectTool = true ∨ s.didAlreadyUseTool = true) :
    countHandlerEvents r.events = 0 :=
  run_flagged_no_handler f env s r hflag hrun

theorem run_at_most_one_handler :
    ∀ (fuel : Nat) (env : DispatchEnv) (s : TaskState) (r : DispatchResult),
      presentAnthropicAssistantMessage fuel env s = some r →
      countHandlerEvents r.events ≤ 1 := by
  intro fuel
  induction fuel with
  | zero =>
      intro env s r hrun
      simp [presentAnthropicAssistantMessage] at hrun
  | succ f ih =>
      intro env s r hrun
      by_cases hflag : s.didRejectTool = true ∨ s.didAlreadyUseTool = true
      · have h0 := run_flagged_no_handler (f + 1) env s r hflag hrun
        omega
      · push_neg at hflag
        have hrej : s.didRejectTool = false := by
          rcases hflag with ⟨h1, _⟩
          exact Bool.not_eq_true _ ▸ h1
        have hused : s.didAlreadyUseTool = false := by
          rcases hflag with ⟨_, h2⟩
          exact Bool.not_eq_true _ ▸ h2
        by_cases hab : s.abort = true
        · simp only [presentAnthropicAssistantMessage, hab, if_true,
            Option.some.injEq] at hrun
          subst hrun
          simp [countHandlerEvents]
        · rw [Bool.not_eq_true] at hab
          by_cases hlk : s.presentAssistantMessageLocked = true
          · simp only [presentAnthropicAssistantMessage, hab, hlk, Bool.false_eq_true,
              if_false, if_true, Option.some.injEq] at hrun
            subst hrun
            simp [countHandlerEvents]
          · rw [Bool.not_eq_true] at hlk
            by_cases hend : s.currentStreamingContentIndex
                ≥ s.assistantMessageContent.length
            · simp only [presentAnthropicAssistantMessage, hab, hlk, Bool.false_eq_true,
                if_false, hend, if_true, Option.some.injEq] at hrun
              subst hrun
              simp [countHandlerEvents]
            · have hlt : s.currentStreamingContentIndex
                  < s.assistantMessageContent.length := by omega
              have hblock := List.get?_eq_get hlt
              rcases hbk : s.assistantMessageContent.get
                  ⟨s.currentStreamingContentIndex, hlt⟩ with
                ⟨content, unf⟩ | ⟨id, name, input, unf⟩ | inv
              all_goals rw [hbk] at hblock
              -- text block
              · by_cases hsay : (env s.currentStreamingContentIndex).sayThrows = true
                · simp only [presentAnthropicAssistantMessage, presentTextBlock, hab, hlk,
                    Bool.false_eq_true, if_false, hend, hblock, hrej, hused,
                    Bool.or_self, hsay, if_true, Option.some.injEq] at hrun
                  subst hrun
                  simp [countHandlerEvents]
                · rw [Bool.not_eq_true] at hsay
                  simp only [presentAnthropicAssistantMessage, presentTextBlock, hab, hlk,
                    Bool.false_eq_true, if_false, hend, hblock, hrej, hused,
                    Bool.or_self, hsay] at hrun
                  split at hrun
                  · split at hrun
                    · split at hrun
                      · obtain ⟨r', hr', rfl⟩ := Option.map_eq_some'.mp hrun
                        have hle := ih env _ r' hr'
                        simp only [countHandlerEvents_append]
                        simpa [countHandlerEvents, isHandlerEvent] using hle
                      · split at hrun
                        · obtain ⟨r', hr', rfl⟩ := Option.map_eq_some'.mp hrun
                          have hle := ih env _ r' hr'
                          simp only [countHandlerEvents_append]
                          simpa [countHandlerEvents, isHandlerEvent] using hle
                        · simp only [Bool.false_eq_true, if_false, Option.some.injEq] at hrun
                          subst hrun
                          simp [countHandlerEvents, isHandlerEvent]
                    · split at hrun
                      · obtain ⟨r', hr', rfl⟩ := Option.map_eq_some'.mp hrun
                        have hle := ih env _ r' hr'
                        simp only [countHandlerEvents_append]
                        simpa [countHandlerEvents, isHandlerEvent] using hle
                      · split at hrun
                        · obtain ⟨r', hr', rfl⟩ := Option.map_eq_some'.mp hrun
                          have hle := ih env _ r' hr'
                          simp only [countHandlerEvents_append]
                          simpa [countHandlerEvents, isHandlerEvent] using hle
                        · simp only [Bool.false_eq_true, if_false, Option.some.injEq] at hrun
                          subst hrun
                          simp [countHandlerEvents, isHandlerEvent]
                  · simp only [Bool.false_eq_true, if_false, Option.some.injEq] at hrun
                    subst hrun
                    simp [countHandlerEvents, isHandlerEvent]
              · rcases hfind : (parseAssistantMessage
                    (convertAnthropicToolUseToXml name input)).find?
                    (fun b => match b with | .toolUse _ => true | _ => false) with _ | fb
                · -- no tool_use block found: fallback error outcome
                  simp only [presentAnthropicAssistantMessage,
                    presentAnthropicToolUseBlock, hab, hlk, Bool.false_eq_true, if_false,
                    hend, hblock, hrej, hused, Bool.or_self, hfind,
                    eq_self_iff_true, or_true, if_true] at hrun
                  split at hrun
                  · split at hrun
                    · obtain ⟨r', hr', rfl⟩ := Option.map_eq_some'.mp hrun
                      have h0 := run_flagged_no_handler_of_run f env _ r' hr' (Or.inr rfl)
                      simp only [countHandlerEvents_append, h0]
                      simp [countHandlerEvents]
                    · simp only [Bool.false_eq_true, if_false, Option.some.injEq] at hrun
                      subst hrun
                      simp [countHandlerEvents]
                  · split at hrun
                    · obtain ⟨r', hr', rfl⟩ := Option.map_eq_some'.mp hrun
                      have h0 := run_flagged_no_handler_of_run f env _ r' hr' (Or.inr rfl)
                      simp only [countHandlerEvents_append, h0]
                      simp [countHandlerEvents]
                    · simp only [Bool.false_eq_true, if_false, Option.some.injEq] at hrun
                      subst hrun
                      simp [countHandlerEvents]
                · rcases fb with ⟨fc, fu⟩ | inv
                  · -- found block is a text block: fallback arm
                    simp only [presentAnthropicAssistantMessage,
                      presentAnthropicToolUseBlock, hab, hlk, Bool.false_eq_true, if_false,
                      hend, hblock, hrej, hused, Bool.or_self, hfind,
                    eq_self_iff_true, or_true, if_true] at hrun
                    split at hrun
                    · split at hrun
                      · obtain ⟨r', hr', rfl⟩ := Option.map_eq_some'.mp hrun
                        have h0 := run_flagged_no_handler_of_run f env _ r' hr' (Or.inr rfl)
                        simp only [countHandlerEvents_append, h0]
                        simp [countHandlerEvents]
                      · simp only [Bool.false_eq_true, if_false, Option.some.injEq] at hrun
                        subst hrun
                        simp [countHandlerEvents]
                    · split at hrun
                      · obtain ⟨r', hr', rfl⟩ := Option.map_eq_some'.mp hrun
                        have h0 := run_flagged_no_handler_of_run f env _ r' hr' (Or.inr rfl)
                        simp only [countHandlerEvents_append, h0]
                        simp [countHandlerEvents]
                      · simp only [Bool.false_eq_true, if_false, Option.some.injEq] at hrun
                        subst hrun
                        simp [countHandlerEvents]
                  · -- a tool_use block was found
                    rcases hval : (env s.currentStreamingContentIndex).validateFails
                        with _ | msg
                    · -- validation passes
                      by_cases hknown : (knownDispatchToolNames.contains inv.name) = true
                      · rcases hh : (env s.currentStreamingContentIndex).handler
                            with ⟨msg⟩ | ⟨setReject, results⟩
                        · simp only [presentAnthropicAssistantMessage,
                            presentAnthropicToolUseBlock, hab, hlk, Bool.false_eq_true,
                            if_false, hend, hblock, hrej, hused, Bool.or_self, hfind,
                            hval, hknown, if_true, hh, eq_self_iff_true, or_true] at hrun
                          split at hrun
                          · split at hrun
                            · obtain ⟨r', hr', rfl⟩ := Option.map_eq_some'.mp hrun
                              have h0 := run_flagged_no_handler_of_run f env _ r' hr'
                                (Or.inr rfl)
                              simp only [countHandlerEvents_append, h0,
                                countHandlerEvents_ite_browser, countHandlerEvents_ite_usage]
                              simp [countHandlerEvents, isHandlerEvent]
                            · simp only [Bool.false_eq_true, if_false, Option.some.injEq] at hrun
                              subst hrun
                              simp only [countHandlerEvents_append,
                                countHandlerEvents_ite_browser, countHandlerEvents_ite_usage]
                              simp [countHandlerEvents, isHandlerEvent]
                          · split at hrun
                            · obtain ⟨r', hr', rfl⟩ := Option.map_eq_some'.mp hrun
                              have h0 := run_flagged_no_handler_of_run f env _ r' hr'
                                (Or.inr rfl)
                              simp only [countHandlerEvents_append, h0,
                                countHandlerEvents_ite_browser, countHandlerEvents_ite_usage]
                              simp [countHandlerEvents, isHandlerEvent]
                            · simp only [Bool.false_eq_true, if_false, Option.some.injEq] at hrun
                              subst hrun
                              simp only [countHandlerEvents_append,
                                countHandlerEvents_ite_browser, countHandlerEvents_ite_usage]
                              simp [countHandlerEvents, isHandlerEvent]
                        · simp only [presentAnthropicAssistantMessage,
                            presentAnthropicToolUseBlock, hab, hlk, Bool.false_eq_true,
                            if_false, hend, hblock, hrej, hused, Bool.or_self, hfind,
                            hval, hknown, if_true, hh, eq_self_iff_true, or_true] at hrun
                          split at hrun
                          · split at hrun
                            · obtain ⟨r', hr', rfl⟩ := Option.map_eq_some'.mp hrun
                              have h0 := run_flagged_no_handler_of_run f env _ r' hr'
                                (Or.inr rfl)
                              simp only [countHandlerEvents_append, h0,
                                countHandlerEvents_ite_browser, countHandlerEvents_ite_usage]
                              simp [countHandlerEvents, isHandlerEvent]
                            · simp only [Bool.false_eq_true, if_false, Option.some.injEq] at hrun
                              subst hrun
                              simp only [countHandlerEvents_append,
                                countHandlerEvents_ite_browser, countHandlerEvents_ite_usage]
                              simp [countHandlerEvents, isHandlerEvent]
                          · split at hrun
                            · obtain ⟨r', hr', rfl⟩ := Option.map_eq_some'.mp hrun
                              have h0 := run_flagged_no_handler_of_run f env _ r' hr'
                                (Or.inr rfl)
                              simp only [countHandlerEvents_append, h0,
                                countHandlerEvents_ite_browser, countHandlerEvents_ite_usage]
                              simp [countHandlerEvents, isHandlerEvent]
                            · simp only [Bool.false_eq_true, if_false, Option.some.injEq] at hrun
                              subst hrun
                              simp only [countHandlerEvents_append,
                                countHandlerEvents_ite_browser, countHandlerEvents_ite_usage]
                              simp [countHandlerEvents, isHandlerEvent]
                      · simp only [presentAnthropicAssistantMessage,
                          presentAnthropicToolUseBlock, hab, hlk, Bool.false_eq_true,
                          if_false, hend, hblock, hrej, hused, Bool.or_self, hfind,
                          hval, hknown, Bool.false_eq_true, if_false,
                          eq_self_iff_true, or_true, if_true] at hrun
                        split at hrun
                        · split at hrun
                          · obtain ⟨r', hr', rfl⟩ := Option.map_eq_some'.mp hrun
                            have h0 := run_flagged_no_handler_of_run f env _ r' hr'
                              (Or.inr rfl)
                            simp only [countHandlerEvents_append, h0,
                              countHandlerEvents_ite_browser, countHandlerEvents_ite_usage]
                            simp [countHandlerEvents, isHandlerEvent]
                          · simp only [Bool.false_eq_true, if_false, Option.some.injEq] at hrun
                            subst hrun
                            simp only [countHandlerEvents_append,
                              countHandlerEvents_ite_browser, countHandlerEvents_ite_usage]
                            simp [countHandlerEvents, isHandlerEvent]
                        · split at hrun
                          · obtain ⟨r', hr', rfl⟩ := Option.map_eq_some'.mp hrun
                            have h0 := run_flagged_no_handler_of_run f env _ r' hr'
                              (Or.inr rfl)
                            simp only [countHandlerEvents_append, h0,
                              countHandlerEvents_ite_browser, countHandlerEvents_ite_usage]
                            simp [countHandlerEvents, isHandlerEvent]
                          · simp only [Bool.false_eq_true, if_false, Option.some.injEq] at hrun
                            subst hrun
                            simp only [countHandlerEvents_append,
                              countHandlerEvents_ite_browser, countHandlerEvents_ite_usage]
                            simp [countHandlerEvents, isHandlerEvent]
                    · -- validation failure: early return, no handler
                      simp only [presentAnthropicAssistantMessage,
                        presentAnthropicToolUseBlock, hab, hlk, Bool.false_eq_true,
                        if_false, hend, hblock, hrej, hused, Bool.or_self, hfind,
                        hval, Option.some.injEq] at hrun
                      subst hrun
                      simp only [countHandlerEvents_append,
                        countHandlerEvents_ite_browser, countHandlerEvents_ite_usage]
                      simp [countHandlerEvents]
              · simp only [presentAnthropicAssistantMessage, hab, hlk, Bool.false_eq_true,
                  if_false, hend, hblock, Option.some.injEq] at hrun
                subst hrun
                simp [countHandlerEvents]

/-- C2: at most one tool handler executes per turn.  First part: once
`didRejectTool` or `didAlreadyUseTool` is set, a dispatch run over a turn
of text/anthropic blocks invokes no collaborator at all (its event list is
empty, so in particular no handler runs) yet still advances the cursor past
every remaining block to the end of the sequence.  Second part: any
dispatch run whatsoever records at most one handler invocation. -/
theorem at_most_one_tool_per_turn :
    (∀ (fuel : Nat) (env : DispatchEnv) (s : TaskState),
      s.abort = false → s.presentAssistantMessageLocked = false →
      (s.didRejectTool = true ∨ s.didAlreadyUseTool = true) →
      (∀ inv, Block.toolUse inv ∉ s.assistantMessageContent) →
      s.currentStreamingContentIndex ≤ s.assistantMessageContent.length →
      s.assistantMessageContent.length < s.currentStreamingContentIndex + fuel →
      ∃ s', presentAnthropicAssistantMessage fuel env s = some ⟨.normal, s', []⟩ ∧
        s'.currentStreamingContentIndex = s.assistantMessageContent.length ∧
        s'.assistantMessageContent = s.assistantMessageContent ∧
        s'.userMessageContent = s.userMessageContent ∧
        s'.presentAssistantMessageLocked = false ∧
        s'.didRejectTool = s.didRejectTool ∧
        s'.didAlreadyUseTool = s.didAlreadyUseTool) ∧
    (∀ (fuel : Nat) (env : DispatchEnv) (s : TaskState) (r : DispatchResult),
      presentAnthropicAssistantMessage fuel env s = some r →
      countHandlerEvents r.events ≤ 1) :=
  ⟨run_flagged_advances, run_at_most_one_handler⟩

/-- Witness for C2: a turn with one text and two tool blocks after
`didAlreadyUseTool` is set runs to the end with no events, and a fresh
two-tool turn records at most one handler invocation. -/
theorem at_most_one_tool_per_turn_witness :
    (∃ s', presentAnthropicAssistantMessage 10 (fun _ => ⟨false, none, .finishes false none⟩)
        ⟨false, false, false, 0,
          [Block.text "hi".data false,
           Block.anthropicToolUse "t1" "read_file" (.obj []) false,
           Block.anthropicToolUse "t2" "write_to_file" (.obj []) false],
          true, false, false, true, [], 0⟩
      = some ⟨.normal, s', []⟩ ∧ s'.currentStreamingContentIndex = 3) ∧
    (∃ r, presentAnthropicAssistantMessage 10
        (fun _ => ⟨false, none, .finishes false (some (.str "ok".data))⟩)
        ⟨false, false, false, 0,
          [Block.anthropicToolUse "t1" "read_file" (.obj [("path", .str "a.py")]) false,
           Block.anthropicToolUse "t2" "list_files" (.obj [("path", .str ".")]) false],
          true, false, false, false, [], 0⟩
      = some r ∧ countHandlerEvents r.events ≤ 1) := by
  constructor
  · obtain ⟨s', hrun, h1, _⟩ := at_most_one_tool_per_turn.1 10
      (fun _ => ⟨false, none, .finishes false none⟩)
      ⟨false, false, false, 0,
        [Block.text "hi".data false,
         Block.anthropicToolUse "t1" "read_file" (.obj []) false,
         Block.anthropicToolUse "t2" "write_to_file" (.obj []) false],
        true, false, false, true, [], 0⟩
      rfl rfl (Or.inr rfl) (by intro inv h; simp at h) (by simp) (by simp)
    exact ⟨s', hrun, h1⟩
  · refine ⟨_, rfl, ?_⟩
    exact at_most_one_tool_per_turn.2 10
      (fun _ => ⟨false, none, .finishes false (some (.str "ok".data))⟩)
      ⟨false, false, false, 0,
        [Block.anthropicToolUse "t1" "read_file" (.obj [("path", .str "a.py")]) false,
         Block.anthropicToolUse "t2" "list_files" (.obj [("path", .str ".")]) false],
        true, false, false, false, [], 0⟩
      _ rfl
